import Mathlib

set_option autoImplicit false

/-!
Shallow embedding of the Event Synchronization & Reconciliation Engine of the
asset-registry backend (`eventListener.js` together with the data contract of
`db.js`).  Chain-side values that javascript receives as BigInt/number and
immediately stringifies (`id.toString()`, `timestamp.toString()`) are taken as
decimal strings at the boundary; block numbers are kept as `Nat` until the
point where the source calls `.toString()` on them, which is modelled by
`toString`.  Wall-clock reads (`new Date()`, `Date.now()`) are modelled by an
explicit `now : Nat` parameter.  The fallible chain lookups are modelled with
`Except Unit`.
-/

namespace AssetRegistry

/-- One persisted Asset row (the `Asset` model of `db.js`): primary key `id`,
current `owner`, immutable `description`, the chain-reported `timestamp`
stringified, and the local wall-clock `registeredAt`. -/
structure Asset where
  id : String
  owner : String
  description : String
  timestamp : String
  registeredAt : Nat
  deriving Repr, DecidableEq

/-- One persisted Transfer row (the `Transfer` model of `db.js`).  The local
sequential `id` is the position in the insertion-ordered list. -/
structure Transfer where
  assetId : String
  fromOwner : Option String
  toOwner : String
  blockNumber : String
  transactionHash : String
  timestamp : String
  transferredAt : Nat
  deriving Repr, DecidableEq

/-- The persistent store: the Asset table and the Transfer table, the latter
kept in insertion order. -/
structure Store where
  assets : List Asset
  transfers : List Transfer
  deriving Repr, DecidableEq

/-- The transaction metadata fields an event envelope may carry: the hash
field can be named `transactionHash` or `hash`, and `blockNumber` is a number
(0 standing for the falsy/absent case). -/
structure LogRec where
  transactionHash : Option String
  hash : Option String
  blockNumber : Nat
  deriving Repr, DecidableEq

/-- A raw event envelope: subscription-delivered events nest the metadata
under `log`, historical-query events carry it at top level
(`const log = event.log || event`). -/
structure EventEnvelope where
  log : Option LogRec
  top : LogRec
  deriving Repr, DecidableEq

/-- `owner.toLowerCase()`: per-character lowercasing (written via the
character list so that it evaluates inside the kernel). -/
def toLowerStr (s : String) : String := String.mk (s.data.map Char.toLower)

/-- Javascript `a || b` on possibly-absent string fields: `a` falsy (absent
or the empty string) selects `b`. -/
def jsOrStr (a b : Option String) : Option String :=
  match a with
  | some s => if s = "" then b else some s
  | none => b

/-- `event.log || event`: an `event` object is always truthy. -/
def effLog (e : EventEnvelope) : LogRec := e.log.getD e.top

/-- `const transferHash = log.transactionHash || log.hash`. -/
def transferHashOf (e : EventEnvelope) : Option String :=
  jsOrStr (effLog e).transactionHash (effLog e).hash

/-- `const blockNumber = log.blockNumber`. -/
def blockNumberOf (e : EventEnvelope) : Nat := (effLog e).blockNumber

/-- `Asset.findByPk(assetId)`. -/
def findByPk (s : Store) (assetId : String) : Option Asset :=
  s.assets.find? (fun a => a.id = assetId)

/-- `Transfer.findOne({ where: { transactionHash } })`. -/
def findTransferByHash (s : Store) (h : String) : Option Transfer :=
  s.transfers.find? (fun t => t.transactionHash = h)

/-- `provider.getBlock`: may throw (`Except.error`), return no block
(`Except.ok none`), or return a block with its timestamp. -/
def GetBlock := Nat → Except Unit (Option Nat)

/-- `asset.owner = x; await asset.save()`: rewrite the owner of the row(s)
with the given primary key. -/
def updOwner (assetId newOwner : String) (l : List Asset) : List Asset :=
  l.map (fun a => if a.id = assetId then { a with owner := newOwner } else a)

/-- `handleAssetRegistered(id, owner, description, timestamp, event)`:
create the Asset if absent, then (independently) insert the initial
Transfer row when transaction metadata is present and its hash is new.
The operation cannot fail. -/
def handleAssetRegistered (s : Store) (now : Nat)
    (id owner description timestamp : String) (event : EventEnvelope) : Store :=
  let assetId := id
  let ownerAddress := (toLowerStr owner)
  let timestampValue := timestamp
  let s1 :=
    match findByPk s assetId with
    | some _ => s
    | none =>
        { s with assets := s.assets ++
            [{ id := assetId, owner := ownerAddress, description := description,
               timestamp := timestampValue, registeredAt := now }] }
  match transferHashOf event with
  | none => s1
  | some transferHash =>
      if transferHash ≠ "" ∧ blockNumberOf event ≠ 0 then
        match findTransferByHash s1 transferHash with
        | some _ => s1
        | none =>
            { s1 with transfers := s1.transfers ++
                [{ assetId := assetId, fromOwner := none, toOwner := ownerAddress,
                   blockNumber := toString (blockNumberOf event),
                   transactionHash := transferHash, timestamp := timestampValue,
                   transferredAt := now }] }
      else s1

/-- `handleAssetTransferred(id, newOwner, event)`: skip silently when the
asset is unknown; otherwise mutate the owner first, then insert the Transfer
row when metadata is present and the hash is new, resolving the timestamp
through `provider.getBlock` with a wall-clock fallback when the block is
`null`.  The boolean is `true` when the operation surfaces an error (the
only throwing step in the model is the `getBlock` lookup). -/
def handleAssetTransferred (getBlock : GetBlock) (s : Store) (now : Nat)
    (id newOwner : String) (event : EventEnvelope) : Store × Bool :=
  let assetId := id
  let newOwnerAddress := (toLowerStr newOwner)
  match findByPk s assetId with
  | none => (s, false)
  | some asset =>
      let previousOwner := asset.owner
      let s1 : Store := { s with assets := updOwner assetId newOwnerAddress s.assets }
      match transferHashOf event with
      | none => (s1, false)
      | some transferHash =>
          if transferHash ≠ "" ∧ blockNumberOf event ≠ 0 then
            match findTransferByHash s1 transferHash with
            | some _ => (s1, false)
            | none =>
                match getBlock (blockNumberOf event) with
                | Except.error _ => (s1, true)
                | Except.ok block =>
                    let blockTimestamp :=
                      match block with
                      | some b => toString b
                      | none => toString now
                    ({ s1 with transfers := s1.transfers ++
                        [{ assetId := assetId, fromOwner := some previousOwner,
                           toOwner := newOwnerAddress,
                           blockNumber := toString (blockNumberOf event),
                           transactionHash := transferHash, timestamp := blockTimestamp,
                           transferredAt := now }] }, false)
          else (s1, false)

/-- The timestamp the transfer handler resolves: the block's timestamp when
`getBlock` returned a block, otherwise the wall clock (`Date.now()`). -/
def resolvedTs (ob : Option Nat) (now : Nat) : String :=
  match ob with
  | some b => toString b
  | none => toString now

/-- The Asset row `handleAssetRegistered` creates. -/
def regAsset (now : Nat) (id owner description timestamp : String) : Asset :=
  { id := id, owner := (toLowerStr owner), description := description,
    timestamp := timestamp, registeredAt := now }

/-- The initial Transfer row `handleAssetRegistered` creates. -/
def regTransfer (now : Nat) (id owner timestamp : String)
    (event : EventEnvelope) (h : String) : Transfer :=
  { assetId := id, fromOwner := none, toOwner := (toLowerStr owner),
    blockNumber := toString (blockNumberOf event), transactionHash := h,
    timestamp := timestamp, transferredAt := now }

/-- The Transfer row `handleAssetTransferred` creates. -/
def xferTransfer (now : Nat) (id prevOwner newOwner : String)
    (event : EventEnvelope) (h : String) (ob : Option Nat) : Transfer :=
  { assetId := id, fromOwner := some prevOwner, toOwner := (toLowerStr newOwner),
    blockNumber := toString (blockNumberOf event), transactionHash := h,
    timestamp := resolvedTs ob now, transferredAt := now }

/-- Number of Transfer rows carrying a given transaction hash. -/
def countHash (ts : List Transfer) (h : String) : Nat :=
  ts.countP (fun t => t.transactionHash = h)

/-- Applying the same Transferred event twice in sequence (C1). -/
def applyTwiceT (getBlock : GetBlock) (s : Store) (now1 now2 : Nat)
    (id newOwner : String) (event : EventEnvelope) : Store :=
  (handleAssetTransferred getBlock
    (handleAssetTransferred getBlock s now1 id newOwner event).1
    now2 id newOwner event).1

/-- Applying the same Registered event twice in sequence (C2). -/
def applyTwiceR (s : Store) (now1 now2 : Nat)
    (id owner description timestamp : String) (event : EventEnvelope) : Store :=
  handleAssetRegistered
    (handleAssetRegistered s now1 id owner description timestamp event)
    now2 id owner description timestamp event

/-- Sample data for concrete witnesses (the scenario of the spec). -/
def envOf (h : String) (bn : Nat) : EventEnvelope :=
  { log := none, top := { transactionHash := some h, hash := none, blockNumber := bn } }

def gbOk : GetBlock := fun _ => Except.ok (some 2000)

def gbNull : GetBlock := fun _ => Except.ok none

def gbFail : GetBlock := fun _ => Except.error ()

def asset1 : Asset :=
  { id := "1", owner := "0xaa", description := "Doc", timestamp := "1000", registeredAt := 7 }

def store1 : Store := { assets := [asset1], transfers := [] }

/-- One Transferred event of a sequence applied for a fixed asset: the new
owner, the delivery envelope, and the wall clock at application time. -/
structure XferEvent where
  newOwner : String
  env : EventEnvelope
  now : Nat
  deriving Repr, DecidableEq

/-- Sequential application of Transferred events for one asset id. -/
def applyXfers (getBlock : GetBlock) (id : String) (s : Store)
    (es : List XferEvent) : Store :=
  es.foldl (fun s2 e => (handleAssetTransferred getBlock s2 e.now id e.newOwner e.env).1) s

/-- The Transfer rows of one asset, in insertion order. -/
def transfersFor (s : Store) (id : String) : List Transfer :=
  s.transfers.filter (fun t => t.assetId = id)

/-- The chain condition of the spec: the first row's `fromOwner` is `prev`
and every later row's `fromOwner` is the previous row's `toOwner`. -/
def chainFrom : Option String → List Transfer → Prop
  | _, [] => True
  | prev, t :: ts => t.fromOwner = prev ∧ chainFrom (some t.toOwner) ts

/-- The `toOwner` of the last row of the chain (`prev` when empty). -/
def endOwner : Option String → List Transfer → Option String
  | prev, [] => prev
  | _, t :: ts => endOwner (some t.toOwner) ts

instance chainFromDec : (p : Option String) → (ts : List Transfer) →
    Decidable (chainFrom p ts)
  | _, [] => Decidable.isTrue trivial
  | p, t :: ts =>
      haveI : Decidable (chainFrom (some t.toOwner) ts) :=
        chainFromDec (some t.toOwner) ts
      inferInstanceAs (Decidable (t.fromOwner = p ∧ chainFrom (some t.toOwner) ts))

/-- The transaction hash an envelope effectively carries. -/
def evHash (e : EventEnvelope) : String := (transferHashOf e).getD ""

/-- The envelope carries usable transaction metadata: a truthy hash and a
truthy block number — what every chain-delivered event envelope has. -/
def goodMeta (e : EventEnvelope) : Prop :=
  transferHashOf e = some (evHash e) ∧ evHash e ≠ "" ∧ blockNumberOf e ≠ 0

instance (e : EventEnvelope) : Decidable (goodMeta e) := by
  unfold goodMeta
  infer_instance

/-- A Registered event as returned by a historical query
(`event.args` destructured plus the envelope). -/
structure RegEvent where
  id : String
  owner : String
  description : String
  timestamp : String
  env : EventEnvelope
  deriving Repr, DecidableEq

/-- A Transferred event as returned by a historical query. -/
structure TransferEvent where
  id : String
  newOwner : String
  env : EventEnvelope
  deriving Repr, DecidableEq

/-- The Chain Event Source as `syncHistoricalEvents` consumes it: the height
query, the two ranged event queries, and the block lookup, each fallible. -/
structure ChainSource where
  getBlockNumber : Except Unit Nat
  queryRegs : Nat → Nat → Except Unit (List RegEvent)
  queryXfers : Nat → Nat → Except Unit (List TransferEvent)
  getBlock : GetBlock

/-- Apply a chunk's Registered events in order (infallible in the model). -/
def applyRegs (s : Store) (now : Nat) (regs : List RegEvent) : Store :=
  regs.foldl (fun s2 e =>
    handleAssetRegistered s2 now e.id e.owner e.description e.timestamp e.env) s

/-- Apply a chunk's Transferred events in order, stopping at the first
application that throws: its partial effects are kept and the rest of the
chunk is abandoned (the catch swallows the error). -/
def applyXfersPartial (getBlock : GetBlock) (now : Nat) :
    List TransferEvent → Store → Store
  | [], s => s
  | e :: es, s =>
      match handleAssetTransferred getBlock s now e.id e.newOwner e.env with
      | (s2, true) => s2
      | (s2, false) => applyXfersPartial getBlock now es s2

/-- One chunk of `syncHistoricalEvents`: query and apply registrations, then
query and apply transfers; any error inside the chunk abandons only the rest
of that chunk. -/
def runChunk (src : ChainSource) (now : Nat) (s : Store)
    (startBlock endBlock : Nat) : Store :=
  match src.queryRegs startBlock endBlock with
  | Except.error _ => s
  | Except.ok regs =>
      let s1 := applyRegs s now regs
      match src.queryXfers startBlock endBlock with
      | Except.error _ => s1
      | Except.ok xfers => applyXfersPartial src.getBlock now xfers s1

/-- The ascending chunk starts of the loop
`for (let b = fromBlock; b <= currentBlock; b += CHUNK)`, chunk size
`K1 + 1` (writing the size as a successor makes the loop well founded,
matching the claim's side condition K at least 1; the source fixes it to 10,
i.e. `K1 = 9`). -/
def chunkStartsAux (K1 currentBlock : Nat) : Nat → Nat → List Nat
  | 0, _ => []
  | fuel + 1, startBlock =>
      if startBlock ≤ currentBlock then
        startBlock :: chunkStartsAux K1 currentBlock fuel (startBlock + K1 + 1)
      else []

def chunkStarts (K1 currentBlock startBlock : Nat) : List Nat :=
  chunkStartsAux K1 currentBlock (currentBlock + 2 - startBlock) startBlock

/-- `syncHistoricalEvents(fromBlock)`: the height query first — its failure
aborts and surfaces (the outer catch rethrows); then each chunk in ascending
order with end `min(start + CHUNK - 1, currentBlock)`; a chunk's failure
only skips that chunk's remainder. -/
def syncHistoricalEvents (src : ChainSource) (K1 now : Nat) (s : Store)
    (fromBlock : Nat) : Except Unit Store :=
  match src.getBlockNumber with
  | Except.error e => Except.error e
  | Except.ok currentBlock =>
      Except.ok ((chunkStarts K1 currentBlock fromBlock).foldl
        (fun s2 b => runChunk src now s2 b (min (b + K1) currentBlock)) s)

/-- One event of the chain's historical log. -/
inductive ChainEvent where
  | reg (e : RegEvent)
  | xfer (e : TransferEvent)
  deriving Repr, DecidableEq

/-- The block a history event was mined in (the envelope's block number). -/
def ChainEvent.block : ChainEvent → Nat
  | reg e => blockNumberOf e.env
  | xfer e => blockNumberOf e.env

/-- The envelope of a history event. -/
def ChainEvent.env : ChainEvent → EventEnvelope
  | reg e => e.env
  | xfer e => e.env

/-- The block-range predicate of a ranged `queryFilter`. -/
def inRange (lo hi : Nat) (ev : ChainEvent) : Bool :=
  decide (lo ≤ ev.block ∧ ev.block ≤ hi)

/-- `queryFilter(AssetRegistered, lo, hi)` over a history: the Registered
events whose block lies in the range, in history order. -/
def regsIn (hist : List ChainEvent) (lo hi : Nat) : List RegEvent :=
  (hist.filter (inRange lo hi)).filterMap (fun ev => match ev with
    | ChainEvent.reg e => some e
    | ChainEvent.xfer _ => none)

/-- `queryFilter(AssetTransferred, lo, hi)` over a history. -/
def xfersIn (hist : List ChainEvent) (lo hi : Nat) : List TransferEvent :=
  (hist.filter (inRange lo hi)).filterMap (fun ev => match ev with
    | ChainEvent.reg _ => none
    | ChainEvent.xfer e => some e)

/-- The Chain Event Source backed by a fixed history at height `H`, with no
failures. -/
def histSource (hist : List ChainEvent) (H : Nat) (getBlock : GetBlock) :
    ChainSource :=
  { getBlockNumber := Except.ok H,
    queryRegs := fun lo hi => Except.ok (regsIn hist lo hi),
    queryXfers := fun lo hi => Except.ok (xfersIn hist lo hi),
    getBlock := getBlock }

/-- The unchunked historical sync of the earlier revision of the listener:
one query for all Registered events from `fromBlock` on, applied in order,
then one query for all Transferred events, applied in order — over a history
whose blocks do not exceed `H`. -/
def syncUnchunked (hist : List ChainEvent) (H : Nat) (getBlock : GetBlock)
    (now : Nat) (s : Store) (fromBlock : Nat) : Store :=
  applyXfersPartial getBlock now (xfersIn hist fromBlock H)
    (applyRegs s now (regsIn hist fromBlock H))

/-- Applying one history event to the store (the registered handler, or the
transferred handler keeping the resulting store). -/
def applyEvent (getBlock : GetBlock) (now : Nat) (s : Store) :
    ChainEvent → Store
  | ChainEvent.reg e =>
      handleAssetRegistered s now e.id e.owner e.description e.timestamp e.env
  | ChainEvent.xfer e =>
      (handleAssetTransferred getBlock s now e.id e.newOwner e.env).1

/-- Sequential application of history events. -/
def applyEvents (getBlock : GetBlock) (now : Nat) (s : Store)
    (evs : List ChainEvent) : Store :=
  evs.foldl (applyEvent getBlock now) s

/-- Two stores equal up to the insertion order of Transfer rows: the Asset
table equal, the Transfer table a permutation. -/
def StoreEquiv (s1 s2 : Store) : Prop :=
  s1.assets = s2.assets ∧ s1.transfers.Perm s2.transfers

/-- A small concrete history: two registrations and one transfer spread over
three chunks of size 10 at height 25. -/
def c7Hist : List ChainEvent :=
  [ChainEvent.reg
    { id := "1", owner := "0xAA", description := "Doc",
      timestamp := "1000", env := envOf "0xt1" 1 },
   ChainEvent.xfer { id := "1", newOwner := "0xBB", env := envOf "0xt2" 12 },
   ChainEvent.reg
    { id := "2", owner := "0xCC", description := "D2",
      timestamp := "1100", env := envOf "0xt3" 21 }]

def c7Src : ChainSource := histSource c7Hist 25 gbOk

/-- The same source except both ranged queries throw on the chunk starting
at block 10. -/
def c7SrcB : ChainSource :=
  { getBlockNumber := Except.ok 25,
    queryRegs := fun lo hi =>
      if lo = 10 then Except.error () else (histSource c7Hist 25 gbOk).queryRegs lo hi,
    queryXfers := fun lo hi =>
      if lo = 10 then Except.error () else (histSource c7Hist 25 gbOk).queryXfers lo hi,
    getBlock := gbOk }

/-- The effect of `handleAssetRegistered` on the Asset table alone. -/
def regA (now : Nat) (e : RegEvent) (l : List Asset) : List Asset :=
  match l.find? (fun a => a.id = e.id) with
  | some _ => l
  | none => l ++ [regAsset now e.id e.owner e.description e.timestamp]

/-- The Transfer rows `handleAssetRegistered` appends, as decided from the
pre-state Transfer table. -/
def regR (now : Nat) (e : RegEvent) (ts : List Transfer) : List Transfer :=
  match transferHashOf e.env with
  | none => []
  | some h =>
      if h ≠ "" ∧ blockNumberOf e.env ≠ 0 then
        match ts.find? (fun t => t.transactionHash = h) with
        | some _ => []
        | none => [regTransfer now e.id e.owner e.timestamp e.env h]
      else []

/-- The effect of `handleAssetTransferred` on the Asset table alone. -/
def xferA (e : TransferEvent) (l : List Asset) : List Asset :=
  match l.find? (fun a => a.id = e.id) with
  | none => l
  | some _ => updOwner e.id (toLowerStr e.newOwner) l

/-- The Transfer rows `handleAssetTransferred` appends, as decided from the
pre-state tables. -/
def xferR (getBlock : GetBlock) (now : Nat) (e : TransferEvent)
    (l : List Asset) (ts : List Transfer) : List Transfer :=
  match l.find? (fun a => a.id = e.id) with
  | none => []
  | some a =>
      match transferHashOf e.env with
      | none => []
      | some h =>
          if h ≠ "" ∧ blockNumberOf e.env ≠ 0 then
            match ts.find? (fun t => t.transactionHash = h) with
            | some _ => []
            | none =>
                match getBlock (blockNumberOf e.env) with
                | Except.error _ => []
                | Except.ok ob => [xferTransfer now e.id a.owner e.newOwner e.env h ob]
          else []

/-- Combined effect on the Asset table of either event kind. -/
def evA (now : Nat) (ev : ChainEvent) (l : List Asset) : List Asset :=
  match ev with
  | ChainEvent.reg e => regA now e l
  | ChainEvent.xfer e => xferA e l

/-- Combined appended Transfer rows of either event kind. -/
def evR (getBlock : GetBlock) (now : Nat) (ev : ChainEvent)
    (l : List Asset) (ts : List Transfer) : List Transfer :=
  match ev with
  | ChainEvent.reg e => regR now e ts
  | ChainEvent.xfer e => xferR getBlock now e l ts

/-- The history used against the chunked-equals-unchunked claim: asset 1
registered in block 1 and transferred in block 2 (first chunk of ten),
asset 2 registered in block 15 (second chunk). -/
def c4Hist : List ChainEvent :=
  [ChainEvent.reg
    { id := "1", owner := "0xAA", description := "Doc",
      timestamp := "1000", env := envOf "0xt1" 1 },
   ChainEvent.xfer { id := "1", newOwner := "0xBB", env := envOf "0xt2" 2 },
   ChainEvent.reg
    { id := "2", owner := "0xCC", description := "D2",
      timestamp := "1100", env := envOf "0xt3" 15 }]

theorem find?_updOwner (l : List Asset) (i o : String) :
    (updOwner i o l).find? (fun a => a.id = i) =
      (l.find? (fun a => a.id = i)).map (fun a => { a with owner := o }) := by
  unfold updOwner
  rw [List.find?_map]
  have hp : ((fun a : Asset => decide (a.id = i)) ∘
      fun a => if a.id = i then { a with owner := o } else a) =
      (fun a : Asset => decide (a.id = i)) := by
    funext a; by_cases h : a.id = i <;> simp [h]
  rw [show ((fun a : Asset => decide (a.id = i)) ∘
      fun a => if a.id = i then { a with owner := o } else a) =
      (fun a : Asset => decide (a.id = i)) from hp]
  cases hfind : l.find? (fun a => decide (a.id = i)) with
  | none => rfl
  | some a =>
      have := List.find?_some hfind
      simp only [decide_eq_true_eq] at this
      simp [this]

theorem updOwner_idem (i o : String) (l : List Asset) :
    updOwner i o (updOwner i o l) = updOwner i o l := by
  unfold updOwner
  rw [List.map_map]
  apply List.map_congr_left
  intro a _
  by_cases h : a.id = i <;> simp [h]

theorem find?_hash_none_of_countHash_zero (ts : List Transfer) (h : String)
    (hc : countHash ts h = 0) :
    ts.find? (fun t => t.transactionHash = h) = none := by
  rw [List.find?_eq_none]
  intro t ht
  have := (List.countP_eq_zero).1 hc t ht
  simpa using this

/-- Characterization: `handleAssetRegistered` on a fresh asset id and a fresh
transaction hash appends one Asset row and one initial Transfer row. -/
theorem hAR_new_fresh (s : Store) (now : Nat)
    (id owner description timestamp : String) (event : EventEnvelope) (h : String)
    (hnone : findByPk s id = none)
    (hh : transferHashOf event = some h) (hne : h ≠ "")
    (hb : blockNumberOf event ≠ 0)
    (hfresh : findTransferByHash s h = none) :
    handleAssetRegistered s now id owner description timestamp event =
      { assets := s.assets ++ [regAsset now id owner description timestamp],
        transfers := s.transfers ++ [regTransfer now id owner timestamp event h] } := by
  have hfresh2 : s.transfers.find? (fun t => t.transactionHash = h) = none := hfresh
  simp only [handleAssetRegistered, hnone, hh, findTransferByHash, hfresh2, hne, hb,
    ne_eq, not_false_eq_true, and_self, if_true, regAsset, regTransfer]

/-- Characterization: `handleAssetRegistered` when the asset already exists
and the hash is fresh appends only the initial Transfer row. -/
theorem hAR_exists_fresh (s : Store) (now : Nat)
    (id owner description timestamp : String) (event : EventEnvelope)
    (a : Asset) (h : String)
    (hsome : findByPk s id = some a)
    (hh : transferHashOf event = some h) (hne : h ≠ "")
    (hb : blockNumberOf event ≠ 0)
    (hfresh : findTransferByHash s h = none) :
    handleAssetRegistered s now id owner description timestamp event =
      { s with transfers := s.transfers ++ [regTransfer now id owner timestamp event h] } := by
  have hfresh2 : s.transfers.find? (fun t => t.transactionHash = h) = none := hfresh
  simp only [handleAssetRegistered, hsome, hh, findTransferByHash, hfresh2, hne, hb,
    ne_eq, not_false_eq_true, and_self, if_true, regTransfer]

/-- Characterization: `handleAssetRegistered` when the asset already exists
and the hash is already present changes nothing. -/
theorem hAR_exists_dup (s : Store) (now : Nat)
    (id owner description timestamp : String) (event : EventEnvelope)
    (a : Asset) (h : String) (t : Transfer)
    (hsome : findByPk s id = some a)
    (hh : transferHashOf event = some h)
    (hdup : findTransferByHash s h = some t) :
    handleAssetRegistered s now id owner description timestamp event = s := by
  have hdup2 : s.transfers.find? (fun t => t.transactionHash = h) = some t := hdup
  by_cases hc : h ≠ "" ∧ blockNumberOf event ≠ 0
  · simp only [handleAssetRegistered, hsome, hh, findTransferByHash, hdup2, hc, if_true,
      if_pos hc]
  · simp only [handleAssetRegistered, hsome, hh, if_neg hc]

/-- Characterization: `handleAssetTransferred` on an existing asset with
fresh hash and a successful block lookup mutates the owner and appends one
Transfer row. -/
theorem hAT_found_fresh_ok (getBlock : GetBlock) (s : Store) (now : Nat)
    (id newOwner : String) (event : EventEnvelope) (a : Asset) (h : String)
    (ob : Option Nat)
    (ha : findByPk s id = some a)
    (hh : transferHashOf event = some h) (hne : h ≠ "")
    (hb : blockNumberOf event ≠ 0)
    (hfresh : findTransferByHash s h = none)
    (hgb : getBlock (blockNumberOf event) = Except.ok ob) :
    handleAssetTransferred getBlock s now id newOwner event =
      ({ assets := updOwner id (toLowerStr newOwner) s.assets,
         transfers := s.transfers ++
           [xferTransfer now id a.owner newOwner event h ob] }, false) := by
  have hfresh2 : s.transfers.find? (fun t => t.transactionHash = h) = none := hfresh
  simp only [handleAssetTransferred, ha, hh, findTransferByHash, hfresh2, hgb, hne, hb,
    ne_eq, not_false_eq_true, and_self, if_true, xferTransfer, resolvedTs]

/-- Characterization: `handleAssetTransferred` on an existing asset with an
already-present hash mutates the owner but inserts nothing. -/
theorem hAT_found_dup (getBlock : GetBlock) (s : Store) (now : Nat)
    (id newOwner : String) (event : EventEnvelope) (a : Asset) (h : String)
    (t : Transfer)
    (ha : findByPk s id = some a)
    (hh : transferHashOf event = some h)
    (hdup : findTransferByHash s h = some t) :
    handleAssetTransferred getBlock s now id newOwner event =
      ({ s with assets := updOwner id (toLowerStr newOwner) s.assets }, false) := by
  have hdup2 : s.transfers.find? (fun t => t.transactionHash = h) = some t := hdup
  by_cases hc : h ≠ "" ∧ blockNumberOf event ≠ 0
  · simp only [handleAssetTransferred, ha, hh, findTransferByHash, hdup2, if_pos hc]
  · simp only [handleAssetTransferred, ha, hh, if_neg hc]

/-- Characterization: `handleAssetTransferred` on an existing asset with a
fresh hash whose block lookup throws surfaces the error after the owner
mutation, inserting nothing. -/
theorem hAT_found_err (getBlock : GetBlock) (s : Store) (now : Nat)
    (id newOwner : String) (event : EventEnvelope) (a : Asset) (h : String)
    (ha : findByPk s id = some a)
    (hh : transferHashOf event = some h) (hne : h ≠ "")
    (hb : blockNumberOf event ≠ 0)
    (hfresh : findTransferByHash s h = none)
    (hgb : getBlock (blockNumberOf event) = Except.error ()) :
    handleAssetTransferred getBlock s now id newOwner event =
      ({ s with assets := updOwner id (toLowerStr newOwner) s.assets }, true) := by
  have hfresh2 : s.transfers.find? (fun t => t.transactionHash = h) = none := hfresh
  simp only [handleAssetTransferred, ha, hh, findTransferByHash, hfresh2, hgb,
    if_pos (show h ≠ "" ∧ blockNumberOf event ≠ 0 from ⟨hne, hb⟩)]

theorem findByPk_zero_count (s : Store) (id : String)
    (hacount : s.assets.countP (fun x => x.id = id) = 0) :
    findByPk s id = none := by
  show s.assets.find? (fun x => x.id = id) = none
  rw [List.find?_eq_none]
  intro x hx
  have := (List.countP_eq_zero).1 hacount x hx
  simpa using this

/-- C6: a Transferred event whose `assetId` has no existing Asset row changes
nothing: no Asset row and no Transfer row is created, the store is returned
unchanged, and no error is raised (silent skip). -/
theorem C6_orphan_transfer_silent_skip (getBlock : GetBlock) (s : Store)
    (now : Nat) (id newOwner : String) (event : EventEnvelope)
    (hnone : findByPk s id = none) :
    handleAssetTransferred getBlock s now id newOwner event = (s, false) := by
  simp only [handleAssetTransferred, hnone]

theorem C6_orphan_transfer_silent_skip_witness :
    findByPk { assets := [], transfers := [] } "1" = none ∧
    handleAssetTransferred gbOk { assets := [], transfers := [] } 5 "1" "0xBB"
      (envOf "0xt2" 20) = ({ assets := [], transfers := [] }, false) :=
  ⟨rfl, C6_orphan_transfer_silent_skip gbOk { assets := [], transfers := [] } 5 "1" "0xBB"
    (envOf "0xt2" 20) rfl⟩

/-- C9: when the envelope carries a transaction hash but its `blockNumber` is
0 (the javascript-falsy case), the metadata guard `transferHash && blockNumber`
fails, so no Transfer row is created, while the Asset creation (registration)
or the owner mutation (transfer) still takes effect and no error is raised. -/
theorem C9_zero_blockNumber_drops_transfer (getBlock : GetBlock) (s : Store)
    (now : Nat) (id owner description timestamp newOwner : String)
    (event : EventEnvelope) (h : String) (a : Asset)
    (hh : transferHashOf event = some h) (hne : h ≠ "")
    (hb : blockNumberOf event = 0) :
    ((handleAssetRegistered s now id owner description timestamp event).transfers
        = s.transfers
      ∧ (findByPk s id = none →
          (handleAssetRegistered s now id owner description timestamp event).assets
            = s.assets ++ [regAsset now id owner description timestamp]))
    ∧ (findByPk s id = some a →
        handleAssetTransferred getBlock s now id newOwner event
          = ({ s with assets := updOwner id (toLowerStr newOwner) s.assets }, false)) := by
  refine ⟨⟨?_, ?_⟩, ?_⟩
  · cases hf : findByPk s id with
    | none => simp [handleAssetRegistered, hf, hh, hb]
    | some a2 => simp [handleAssetRegistered, hf, hh, hb]
  · intro hf
    simp [handleAssetRegistered, hf, hh, hb, regAsset]
  · intro hf
    simp [handleAssetTransferred, hf, hh, hb]

theorem C9_zero_blockNumber_drops_transfer_witness :
    (((handleAssetRegistered store1 5 "1" "0xCC" "D2" "1500" (envOf "0xt3" 0)).transfers
        = store1.transfers
      ∧ (findByPk store1 "1" = none →
          (handleAssetRegistered store1 5 "1" "0xCC" "D2" "1500" (envOf "0xt3" 0)).assets
            = store1.assets ++ [regAsset 5 "1" "0xCC" "D2" "1500"]))
    ∧ (findByPk store1 "1" = some asset1 →
        handleAssetTransferred gbOk store1 5 "1" "0xDD" (envOf "0xt3" 0)
          = ({ store1 with assets := updOwner "1" (toLowerStr "0xDD") store1.assets }, false)))
    ∧ findByPk store1 "1" = some asset1 :=
  ⟨C9_zero_blockNumber_drops_transfer gbOk store1 5 "1" "0xCC" "D2" "1500" "0xDD"
    (envOf "0xt3" 0) "0xt3" asset1 rfl (by decide) rfl, rfl⟩

/-- C5 counterexample: the claim says a failing block-timestamp lookup does
not error but falls back to the wall clock; on the code a lookup that throws
propagates out of the operation.  At this concrete input (existing asset,
metadata present, fresh hash, throwing `getBlock`) the operation surfaces an
error and inserts no Transfer row, refuting the claim as stated. -/
theorem C5_counterexample :
    (handleAssetTransferred gbFail store1 9 "1" "0xBB" (envOf "0xt2" 20)).2 = true
    ∧ (handleAssetTransferred gbFail store1 9 "1" "0xBB" (envOf "0xt2" 20)).1.transfers
        = [] := by
  constructor <;> rfl

/-- C5 (amended): when the envelope carries metadata and no Transfer with its
hash exists, the inserted Transfer's timestamp is the chain-reported block
timestamp when `getBlock` returns a block; when the lookup returns nothing
(`null`) the operation does not error and falls back to the wall clock; but a
lookup that throws propagates as an error from the operation (with no row
inserted). -/
theorem C5_timestamp_resolution (getBlock : GetBlock) (s : Store) (now : Nat)
    (id newOwner : String) (event : EventEnvelope) (a : Asset) (h : String)
    (ha : findByPk s id = some a)
    (hh : transferHashOf event = some h) (hne : h ≠ "")
    (hb : blockNumberOf event ≠ 0)
    (hfresh : findTransferByHash s h = none) :
    (∀ b, getBlock (blockNumberOf event) = Except.ok (some b) →
        handleAssetTransferred getBlock s now id newOwner event =
          ({ assets := updOwner id (toLowerStr newOwner) s.assets,
             transfers := s.transfers ++
               [xferTransfer now id a.owner newOwner event h (some b)] }, false))
    ∧ (getBlock (blockNumberOf event) = Except.ok none →
        handleAssetTransferred getBlock s now id newOwner event =
          ({ assets := updOwner id (toLowerStr newOwner) s.assets,
             transfers := s.transfers ++
               [xferTransfer now id a.owner newOwner event h none] }, false))
    ∧ (getBlock (blockNumberOf event) = Except.error () →
        handleAssetTransferred getBlock s now id newOwner event =
          ({ s with assets := updOwner id (toLowerStr newOwner) s.assets }, true)) :=
  ⟨fun b hgb => hAT_found_fresh_ok getBlock s now id newOwner event a h (some b)
      ha hh hne hb hfresh hgb,
   fun hgb => hAT_found_fresh_ok getBlock s now id newOwner event a h none
      ha hh hne hb hfresh hgb,
   fun hgb => hAT_found_err getBlock s now id newOwner event a h
      ha hh hne hb hfresh hgb⟩

theorem C5_timestamp_resolution_witness :
    (handleAssetTransferred gbOk store1 9 "1" "0xBB" (envOf "0xt2" 20) =
      ({ assets := updOwner "1" (toLowerStr "0xBB") store1.assets,
         transfers := store1.transfers ++
           [xferTransfer 9 "1" asset1.owner "0xBB" (envOf "0xt2" 20) "0xt2" (some 2000)] },
        false))
    ∧ (handleAssetTransferred gbNull store1 9 "1" "0xBB" (envOf "0xt2" 20) =
      ({ assets := updOwner "1" (toLowerStr "0xBB") store1.assets,
         transfers := store1.transfers ++
           [xferTransfer 9 "1" asset1.owner "0xBB" (envOf "0xt2" 20) "0xt2" none] },
        false)) :=
  ⟨(C5_timestamp_resolution gbOk store1 9 "1" "0xBB" (envOf "0xt2" 20) asset1 "0xt2"
      rfl rfl (by decide) (by decide) rfl).1 2000 rfl,
   (C5_timestamp_resolution gbNull store1 9 "1" "0xBB" (envOf "0xt2" 20) asset1 "0xt2"
      rfl rfl (by decide) (by decide) rfl).2.1 rfl⟩

/-- C10: ApplyTransferred is not atomic: on an existing asset with metadata
present and a fresh hash, when the block-timestamp lookup throws, the
operation surfaces the error while the owner mutation is already persisted
(owner is the lowercased new owner) and no Transfer row with the event's
hash was recorded. -/
theorem C10_owner_mutation_precedes_insert (getBlock : GetBlock) (s : Store)
    (now : Nat) (id newOwner : String) (event : EventEnvelope) (a : Asset)
    (h : String)
    (ha : findByPk s id = some a)
    (hh : transferHashOf event = some h) (hne : h ≠ "")
    (hb : blockNumberOf event ≠ 0)
    (hfresh : findTransferByHash s h = none)
    (hgb : getBlock (blockNumberOf event) = Except.error ()) :
    (handleAssetTransferred getBlock s now id newOwner event).2 = true
    ∧ findByPk (handleAssetTransferred getBlock s now id newOwner event).1 id
        = some { a with owner := (toLowerStr newOwner) }
    ∧ findTransferByHash (handleAssetTransferred getBlock s now id newOwner event).1 h
        = none := by
  have heq := hAT_found_err getBlock s now id newOwner event a h ha hh hne hb hfresh hgb
  rw [heq]
  refine ⟨rfl, ?_, hfresh⟩
  show (updOwner id (toLowerStr newOwner) s.assets).find? (fun x => x.id = id)
      = some { a with owner := (toLowerStr newOwner) }
  rw [find?_updOwner]
  rw [show s.assets.find? (fun x => x.id = id) = some a from ha]
  rfl

theorem C10_owner_mutation_precedes_insert_witness :
    (handleAssetTransferred gbFail store1 9 "1" "0xBB" (envOf "0xt2" 20)).2 = true
    ∧ findByPk (handleAssetTransferred gbFail store1 9 "1" "0xBB" (envOf "0xt2" 20)).1 "1"
        = some { asset1 with owner := toLowerStr "0xBB" }
    ∧ findTransferByHash
        (handleAssetTransferred gbFail store1 9 "1" "0xBB" (envOf "0xt2" 20)).1 "0xt2"
        = none :=
  C10_owner_mutation_precedes_insert gbFail store1 9 "1" "0xBB" (envOf "0xt2" 20)
    asset1 "0xt2" rfl rfl (by decide) (by decide) rfl rfl

/-- C1: applying the exact same Transferred event twice to an existing asset
(same assetId, newOwner, transactionHash, blockNumber; the hash not yet in
the store; the block lookup succeeding) leaves exactly one Transfer row for
that transactionHash, the Asset's owner equal to the lowercased newOwner,
and the second application changes nothing at all. -/
theorem C1_transferred_twice_idempotent (getBlock : GetBlock) (s : Store)
    (now1 now2 : Nat) (id newOwner : String) (event : EventEnvelope)
    (a : Asset) (h : String) (ob : Option Nat)
    (ha : findByPk s id = some a)
    (hh : transferHashOf event = some h) (hne : h ≠ "")
    (hb : blockNumberOf event ≠ 0)
    (hcount : countHash s.transfers h = 0)
    (hgb : getBlock (blockNumberOf event) = Except.ok ob) :
    countHash (applyTwiceT getBlock s now1 now2 id newOwner event).transfers h = 1
    ∧ findByPk (applyTwiceT getBlock s now1 now2 id newOwner event) id
        = some { a with owner := (toLowerStr newOwner) }
    ∧ applyTwiceT getBlock s now1 now2 id newOwner event
        = (handleAssetTransferred getBlock s now1 id newOwner event).1 := by
  have hfresh : findTransferByHash s h = none :=
    find?_hash_none_of_countHash_zero s.transfers h hcount
  have h1 := hAT_found_fresh_ok getBlock s now1 id newOwner event a h ob
    ha hh hne hb hfresh hgb
  have hfind1 : findByPk
      { assets := updOwner id (toLowerStr newOwner) s.assets,
        transfers := s.transfers ++ [xferTransfer now1 id a.owner newOwner event h ob] } id
      = some { a with owner := (toLowerStr newOwner) } := by
    show (updOwner id (toLowerStr newOwner) s.assets).find? (fun x => x.id = id)
        = some { a with owner := (toLowerStr newOwner) }
    rw [find?_updOwner]
    rw [show s.assets.find? (fun x => x.id = id) = some a from ha]
    rfl
  have hdup : findTransferByHash
      { assets := updOwner id (toLowerStr newOwner) s.assets,
        transfers := s.transfers ++ [xferTransfer now1 id a.owner newOwner event h ob] } h
      = some (xferTransfer now1 id a.owner newOwner event h ob) := by
    show (s.transfers ++ [xferTransfer now1 id a.owner newOwner event h ob]).find?
        (fun t => t.transactionHash = h) = _
    rw [List.find?_append]
    rw [show s.transfers.find? (fun t => t.transactionHash = h) = none from hfresh]
    simp [xferTransfer]
  have h2 := hAT_found_dup getBlock
    { assets := updOwner id (toLowerStr newOwner) s.assets,
      transfers := s.transfers ++ [xferTransfer now1 id a.owner newOwner event h ob] }
    now2 id newOwner event { a with owner := (toLowerStr newOwner) }
    h (xferTransfer now1 id a.owner newOwner event h ob) hfind1 hh hdup
  have hr2 : applyTwiceT getBlock s now1 now2 id newOwner event
      = { assets := updOwner id (toLowerStr newOwner) s.assets,
          transfers := s.transfers ++ [xferTransfer now1 id a.owner newOwner event h ob] } := by
    unfold applyTwiceT
    rw [h1, h2]
    simp [updOwner_idem]
  refine ⟨?_, ?_, ?_⟩
  · rw [hr2]
    show (s.transfers ++ [xferTransfer now1 id a.owner newOwner event h ob]).countP
        (fun t => t.transactionHash = h) = 1
    rw [List.countP_append]
    rw [show s.transfers.countP (fun t => t.transactionHash = h) = 0 from hcount]
    simp [xferTransfer]
  · rw [hr2]
    exact hfind1
  · rw [hr2, h1]

theorem C1_transferred_twice_idempotent_witness :
    countHash (applyTwiceT gbOk store1 9 11 "1" "0xBB" (envOf "0xt2" 20)).transfers "0xt2" = 1
    ∧ findByPk (applyTwiceT gbOk store1 9 11 "1" "0xBB" (envOf "0xt2" 20)) "1"
        = some { asset1 with owner := toLowerStr "0xBB" }
    ∧ applyTwiceT gbOk store1 9 11 "1" "0xBB" (envOf "0xt2" 20)
        = (handleAssetTransferred gbOk store1 9 "1" "0xBB" (envOf "0xt2" 20)).1 :=
  C1_transferred_twice_idempotent gbOk store1 9 11 "1" "0xBB" (envOf "0xt2" 20)
    asset1 "0xt2" (some 2000) rfl rfl (by decide) (by decide) rfl rfl

/-- C2: applying the exact same Registered event twice (same fields and
envelope) when no Asset row with that id and no Transfer row with that hash
exist yields exactly one Asset row for the id (with the fields from the
first application — in particular `registeredAt = now1`), at most one
Transfer row with null `fromOwner` for that hash, and the second
application changes nothing; the operation is total, so no error is
raised. -/
theorem C2_registered_twice_idempotent (s : Store) (now1 now2 : Nat)
    (id owner description timestamp : String) (event : EventEnvelope) (h : String)
    (hh : transferHashOf event = some h) (hne : h ≠ "")
    (hb : blockNumberOf event ≠ 0)
    (hacount : s.assets.countP (fun x => x.id = id) = 0)
    (hcount : countHash s.transfers h = 0) :
    (applyTwiceR s now1 now2 id owner description timestamp event).assets.countP
        (fun x => x.id = id) = 1
    ∧ findByPk (applyTwiceR s now1 now2 id owner description timestamp event) id
        = some (regAsset now1 id owner description timestamp)
    ∧ (applyTwiceR s now1 now2 id owner description timestamp event).transfers.countP
        (fun t => decide (t.transactionHash = h ∧ t.fromOwner = none)) ≤ 1
    ∧ applyTwiceR s now1 now2 id owner description timestamp event
        = handleAssetRegistered s now1 id owner description timestamp event := by
  have hnone : findByPk s id = none := findByPk_zero_count s id hacount
  have hfresh : findTransferByHash s h = none :=
    find?_hash_none_of_countHash_zero s.transfers h hcount
  have h1 := hAR_new_fresh s now1 id owner description timestamp event h
    hnone hh hne hb hfresh
  have hfindA : findByPk
      { assets := s.assets ++ [regAsset now1 id owner description timestamp],
        transfers := s.transfers ++ [regTransfer now1 id owner timestamp event h] } id
      = some (regAsset now1 id owner description timestamp) := by
    show (s.assets ++ [regAsset now1 id owner description timestamp]).find?
        (fun x => x.id = id) = _
    rw [List.find?_append]
    rw [show s.assets.find? (fun x => x.id = id) = none from hnone]
    simp [regAsset]
  have hdupT : findTransferByHash
      { assets := s.assets ++ [regAsset now1 id owner description timestamp],
        transfers := s.transfers ++ [regTransfer now1 id owner timestamp event h] } h
      = some (regTransfer now1 id owner timestamp event h) := by
    show (s.transfers ++ [regTransfer now1 id owner timestamp event h]).find?
        (fun t => t.transactionHash = h) = _
    rw [List.find?_append]
    rw [show s.transfers.find? (fun t => t.transactionHash = h) = none from hfresh]
    simp [regTransfer]
  have h2 := hAR_exists_dup
    { assets := s.assets ++ [regAsset now1 id owner description timestamp],
      transfers := s.transfers ++ [regTransfer now1 id owner timestamp event h] }
    now2 id owner description timestamp event
    (regAsset now1 id owner description timestamp) h
    (regTransfer now1 id owner timestamp event h) hfindA hh hdupT
  have hr2 : applyTwiceR s now1 now2 id owner description timestamp event
      = { assets := s.assets ++ [regAsset now1 id owner description timestamp],
          transfers := s.transfers ++ [regTransfer now1 id owner timestamp event h] } := by
    unfold applyTwiceR
    rw [h1, h2]
  refine ⟨?_, ?_, ?_, ?_⟩
  · rw [hr2]
    show (s.assets ++ [regAsset now1 id owner description timestamp]).countP
        (fun x => x.id = id) = 1
    rw [List.countP_append, hacount]
    simp [regAsset]
  · rw [hr2]
    exact hfindA
  · rw [hr2]
    show (s.transfers ++ [regTransfer now1 id owner timestamp event h]).countP
        (fun t => decide (t.transactionHash = h ∧ t.fromOwner = none)) ≤ 1
    rw [List.countP_append]
    have hle : s.transfers.countP
        (fun t => decide (t.transactionHash = h ∧ t.fromOwner = none)) ≤
        s.transfers.countP (fun t => t.transactionHash = h) := by
      apply List.countP_mono_left
      intro t _ hp
      simp only [decide_eq_true_eq] at hp
      simp [hp.1]
    have hone : ([regTransfer now1 id owner timestamp event h] :
        List Transfer).countP
        (fun t => decide (t.transactionHash = h ∧ t.fromOwner = none)) ≤ 1 := by
      simp [List.countP_cons, regTransfer]
    have hc0 : s.transfers.countP (fun t => t.transactionHash = h) = 0 := hcount
    omega
  · rw [hr2, h1]

theorem C2_registered_twice_idempotent_witness :
    (applyTwiceR { assets := [], transfers := [] } 7 8 "1" "0xAA" "Doc" "1000"
        (envOf "0xt1" 10)).assets.countP (fun x => x.id = "1") = 1
    ∧ findByPk (applyTwiceR { assets := [], transfers := [] } 7 8 "1" "0xAA" "Doc" "1000"
        (envOf "0xt1" 10)) "1" = some (regAsset 7 "1" "0xAA" "Doc" "1000")
    ∧ (applyTwiceR { assets := [], transfers := [] } 7 8 "1" "0xAA" "Doc" "1000"
        (envOf "0xt1" 10)).transfers.countP
        (fun t => decide (t.transactionHash = "0xt1" ∧ t.fromOwner = none)) ≤ 1
    ∧ applyTwiceR { assets := [], transfers := [] } 7 8 "1" "0xAA" "Doc" "1000"
        (envOf "0xt1" 10)
        = handleAssetRegistered { assets := [], transfers := [] } 7 "1" "0xAA" "Doc" "1000"
            (envOf "0xt1" 10) :=
  C2_registered_twice_idempotent { assets := [], transfers := [] } 7 8 "1" "0xAA" "Doc"
    "1000" (envOf "0xt1" 10) "0xt1" rfl (by decide) (by decide) rfl rfl

theorem chainFrom_append_singleton (p : Option String) (ts : List Transfer)
    (t : Transfer) :
    chainFrom p (ts ++ [t]) ↔ chainFrom p ts ∧ t.fromOwner = endOwner p ts := by
  induction ts generalizing p with
  | nil => simp [chainFrom, endOwner]
  | cons t2 ts ih =>
      rw [List.cons_append]
      show (t2.fromOwner = p ∧ chainFrom (some t2.toOwner) (ts ++ [t])) ↔ _
      rw [ih]
      show _ ↔ ((t2.fromOwner = p ∧ chainFrom (some t2.toOwner) ts)
        ∧ t.fromOwner = endOwner (some t2.toOwner) ts)
      tauto

theorem endOwner_append_singleton (p : Option String) (ts : List Transfer)
    (t : Transfer) :
    endOwner p (ts ++ [t]) = some t.toOwner := by
  induction ts generalizing p with
  | nil => rfl
  | cons t2 ts ih => simp [endOwner, ih]

/-- Applying a sequence of well-formed Transferred events for an asset whose
rows already form a chain ending at the asset's current owner preserves the
chain, appending one row per event. -/
theorem applyXfers_preserves_chain (getBlock : GetBlock)
    (hgb : ∀ n, ∃ r, getBlock n = Except.ok r) (id : String)
    (es : List XferEvent) :
    ∀ (s : Store) (a : Asset), findByPk s id = some a →
      chainFrom none (transfersFor s id) →
      endOwner none (transfersFor s id) = some a.owner →
      (∀ e ∈ es, goodMeta e.env) →
      (∀ e ∈ es, countHash s.transfers (evHash e.env) = 0) →
      (es.map (fun e => evHash e.env)).Nodup →
      ∃ a2 : Asset, findByPk (applyXfers getBlock id s es) id = some a2
        ∧ chainFrom none (transfersFor (applyXfers getBlock id s es) id)
        ∧ endOwner none (transfersFor (applyXfers getBlock id s es) id) = some a2.owner
        ∧ (transfersFor (applyXfers getBlock id s es) id).length
            = (transfersFor s id).length + es.length := by
  induction es with
  | nil =>
      intro s a ha hc he _ _ _
      exact ⟨a, ha, hc, he, by simp [applyXfers]⟩
  | cons e es ih =>
      intro s a ha hc he hgood hfresh hnodup
      obtain ⟨ob, hob⟩ := hgb (blockNumberOf e.env)
      obtain ⟨hsome, hne, hbn⟩ := hgood e (List.mem_cons_self e es)
      have hfr : findTransferByHash s (evHash e.env) = none :=
        find?_hash_none_of_countHash_zero _ _ (hfresh e (List.mem_cons_self e es))
      have h1 := hAT_found_fresh_ok getBlock s e.now id e.newOwner e.env a
        (evHash e.env) ob ha hsome hne hbn hfr hob
      have happly : applyXfers getBlock id s (e :: es)
          = applyXfers getBlock id
            { assets := updOwner id (toLowerStr e.newOwner) s.assets,
              transfers := s.transfers ++
                [xferTransfer e.now id a.owner e.newOwner e.env (evHash e.env) ob] } es := by
        simp only [applyXfers, List.foldl_cons, h1]
      rw [happly]
      have hTfor : transfersFor
          { assets := updOwner id (toLowerStr e.newOwner) s.assets,
            transfers := s.transfers ++
              [xferTransfer e.now id a.owner e.newOwner e.env (evHash e.env) ob] } id
          = transfersFor s id ++
            [xferTransfer e.now id a.owner e.newOwner e.env (evHash e.env) ob] := by
        show (s.transfers ++ [xferTransfer e.now id a.owner e.newOwner e.env
          (evHash e.env) ob]).filter (fun t => t.assetId = id) = _
        rw [List.filter_append]
        simp [xferTransfer, transfersFor]
      have ha2 : findByPk
          { assets := updOwner id (toLowerStr e.newOwner) s.assets,
            transfers := s.transfers ++
              [xferTransfer e.now id a.owner e.newOwner e.env (evHash e.env) ob] } id
          = some { a with owner := (toLowerStr e.newOwner) } := by
        show (updOwner id (toLowerStr e.newOwner) s.assets).find? (fun x => x.id = id) = _
        rw [find?_updOwner]
        rw [show s.assets.find? (fun x => x.id = id) = some a from ha]
        rfl
      obtain ⟨a2, hfind2, hc2, he2, hlen2⟩ := ih
        { assets := updOwner id (toLowerStr e.newOwner) s.assets,
          transfers := s.transfers ++
            [xferTransfer e.now id a.owner e.newOwner e.env (evHash e.env) ob] }
        { a with owner := (toLowerStr e.newOwner) }
        ha2
        (by
          rw [hTfor, chainFrom_append_singleton]
          exact ⟨hc, he.symm ▸ rfl⟩)
        (by rw [hTfor, endOwner_append_singleton]; rfl)
        (fun e2 he2 => hgood e2 (List.mem_cons_of_mem e he2))
        (by
          intro e2 hmem
          show (s.transfers ++ [xferTransfer e.now id a.owner e.newOwner e.env
            (evHash e.env) ob]).countP (fun t => t.transactionHash = evHash e2.env) = 0
          rw [List.countP_append]
          have h0 : s.transfers.countP (fun t => t.transactionHash = evHash e2.env) = 0 :=
            hfresh e2 (List.mem_cons_of_mem e hmem)
          have hneq : evHash e.env ≠ evHash e2.env := by
            intro hcontra
            have hnotin := (List.nodup_cons.1 hnodup).1
            have hme : evHash e2.env ∈ es.map (fun x => evHash x.env) :=
              List.mem_map_of_mem (fun x => evHash x.env) hmem
            rw [← hcontra] at hme
            exact hnotin hme
          rw [h0]
          simp [xferTransfer, hneq])
        (List.nodup_cons.1 hnodup).2
      refine ⟨a2, hfind2, hc2, he2, ?_⟩
      rw [hlen2, hTfor]
      simp
      omega

/-- Supporting lemma: starting from the empty store, applying a Registered
event (with chain metadata) and then N Transferred events sequentially for
that asset — all envelopes carrying metadata, with pairwise-distinct
transaction hashes, and with a non-throwing block source — produces
Transfer rows that, in insertion order, form a chain, with exactly N+1
rows.  The distinct-hash hypothesis is essential: a duplicate re-delivery
breaks the chain (the code_bug evidence for the chain invariant below). -/
theorem applyXfers_chain_distinct (getBlock : GetBlock)
    (now : Nat) (id owner description timestamp : String)
    (regEnv : EventEnvelope) (h0 : String) (es : List XferEvent)
    (hgb : ∀ n, ∃ r, getBlock n = Except.ok r)
    (hh : transferHashOf regEnv = some h0) (hne : h0 ≠ "")
    (hb : blockNumberOf regEnv ≠ 0)
    (hgood : ∀ e ∈ es, goodMeta e.env)
    (hnodup : (h0 :: es.map (fun e => evHash e.env)).Nodup) :
    chainFrom none (transfersFor (applyXfers getBlock id
        (handleAssetRegistered { assets := [], transfers := [] } now
          id owner description timestamp regEnv) es) id)
    ∧ (transfersFor (applyXfers getBlock id
        (handleAssetRegistered { assets := [], transfers := [] } now
          id owner description timestamp regEnv) es) id).length = es.length + 1 := by
  have h1 := hAR_new_fresh { assets := [], transfers := [] } now id owner description
    timestamp regEnv h0 rfl hh hne hb rfl
  rw [h1]
  have hfind : findByPk
      { assets := [] ++ [regAsset now id owner description timestamp],
        transfers := [] ++ [regTransfer now id owner timestamp regEnv h0] } id
      = some (regAsset now id owner description timestamp) := by
    simp [findByPk, regAsset]
  have hTfor : transfersFor
      { assets := [] ++ [regAsset now id owner description timestamp],
        transfers := [] ++ [regTransfer now id owner timestamp regEnv h0] } id
      = [regTransfer now id owner timestamp regEnv h0] := by
    simp [transfersFor, regTransfer]
  obtain ⟨a2, _, hc2, _, hlen2⟩ := applyXfers_preserves_chain getBlock hgb id es
    { assets := [] ++ [regAsset now id owner description timestamp],
      transfers := [] ++ [regTransfer now id owner timestamp regEnv h0] }
    (regAsset now id owner description timestamp)
    hfind
    (by rw [hTfor]; exact ⟨rfl, trivial⟩)
    (by rw [hTfor]; rfl)
    hgood
    (by
      intro e hmem
      show (([] ++ [regTransfer now id owner timestamp regEnv h0] :
          List Transfer)).countP (fun t => t.transactionHash = evHash e.env) = 0
      have hneq : h0 ≠ evHash e.env := by
        intro hcontra
        have hnotin := (List.nodup_cons.1 hnodup).1
        have hme : evHash e.env ∈ es.map (fun x => evHash x.env) :=
          List.mem_map_of_mem (fun x => evHash x.env) hmem
        rw [hcontra] at hnotin
        exact hnotin hme
      simp [regTransfer, hneq])
    (List.nodup_cons.1 hnodup).2
  refine ⟨hc2, ?_⟩
  rw [hlen2, hTfor]
  simp [Nat.add_comm]

/-- C3: the transfer-chain invariant the claim states (first row's
`fromOwner` null, every later row's `fromOwner` the previous row's
`toOwner`) is violated by the code under a duplicate re-delivery, which the
spec's invariant explicitly covers.  Register asset 1 to 0xAA (tx 0xt1),
transfer to 0xBB (tx 0xt2), transfer to 0xCC (tx 0xt3), re-deliver the
0xBB transfer (same tx 0xt2), then transfer to 0xDD (tx 0xt4): the
duplicate mutates the owner back to 0xbb before the transaction-hash check
skips its insert, so the final row records `fromOwner = 0xbb` while the
previous row's `toOwner` is 0xcc — the rows, evaluated here, are
`[(null,0xaa), (0xaa,0xbb), (0xbb,0xcc), (0xbb,0xdd)]` and do not form a
chain. -/
theorem C3_chain_broken_by_duplicate :
    ((transfersFor (applyXfers gbOk "1"
        (handleAssetRegistered { assets := [], transfers := [] } 7
          "1" "0xAA" "Doc" "1000" (envOf "0xt1" 10))
        [{ newOwner := "0xBB", env := envOf "0xt2" 20, now := 9 },
         { newOwner := "0xCC", env := envOf "0xt3" 30, now := 11 },
         { newOwner := "0xBB", env := envOf "0xt2" 20, now := 13 },
         { newOwner := "0xDD", env := envOf "0xt4" 40, now := 15 }]) "1").map
        (fun t => (t.fromOwner, t.toOwner))
      = [(none, "0xaa"), (some "0xaa", "0xbb"), (some "0xbb", "0xcc"),
         (some "0xbb", "0xdd")])
    ∧ ¬ chainFrom none (transfersFor (applyXfers gbOk "1"
        (handleAssetRegistered { assets := [], transfers := [] } 7
          "1" "0xAA" "Doc" "1000" (envOf "0xt1" 10))
        [{ newOwner := "0xBB", env := envOf "0xt2" 20, now := 9 },
         { newOwner := "0xCC", env := envOf "0xt3" 30, now := 11 },
         { newOwner := "0xBB", env := envOf "0xt2" 20, now := 13 },
         { newOwner := "0xDD", env := envOf "0xt4" 40, now := 15 }]) "1") := by
  constructor
  · decide
  · decide

/-- C7: only a failing chain-height query aborts `Sync` and surfaces to the
caller; with the height known, a source that fails exactly on one chunk's
queries still completes, that chunk passing the state through unchanged
while every other chunk in range is fetched and applied, ascending, exactly
as through the non-failing source. -/
theorem C7_sync_partial_failure (src srcB : ChainSource)
    (K1 now fromBlock : Nat) (s0 : Store) (H badLo : Nat)
    (hB : srcB.getBlockNumber = Except.ok H)
    (hgb2 : srcB.getBlock = src.getBlock)
    (hagree : ∀ lo hi, lo ≠ badLo →
        srcB.queryRegs lo hi = src.queryRegs lo hi
        ∧ srcB.queryXfers lo hi = src.queryXfers lo hi)
    (hbad : ∀ hi, srcB.queryRegs badLo hi = Except.error ()) :
    syncHistoricalEvents srcB K1 now s0 fromBlock
      = Except.ok ((chunkStarts K1 H fromBlock).foldl
          (fun s2 b => if b = badLo then s2
            else runChunk src now s2 b (min (b + K1) H)) s0)
    ∧ (∀ (srcE : ChainSource) (e : Unit), srcE.getBlockNumber = Except.error e →
        syncHistoricalEvents srcE K1 now s0 fromBlock = Except.error e) := by
  constructor
  · simp only [syncHistoricalEvents, hB]
    have hfun : (fun (s2 : Store) (b : Nat) => runChunk srcB now s2 b (min (b + K1) H))
        = (fun (s2 : Store) (b : Nat) => if b = badLo then s2
            else runChunk src now s2 b (min (b + K1) H)) := by
      funext s2 b
      by_cases hb : b = badLo
      · rw [if_pos hb, hb]
        simp [runChunk, hbad (min (badLo + K1) H)]
      · obtain ⟨hr, hx⟩ := hagree b (min (b + K1) H) hb
        rw [if_neg hb]
        simp only [runChunk, hr, hx, hgb2]
    rw [hfun]
  · intro srcE e he
    simp only [syncHistoricalEvents, he]

theorem C7_sync_partial_failure_witness :
    syncHistoricalEvents c7SrcB 9 5 { assets := [], transfers := [] } 0
      = Except.ok ((chunkStarts 9 25 0).foldl
          (fun s2 b => if b = 10 then s2
            else runChunk c7Src 5 s2 b (min (b + 9) 25)) { assets := [], transfers := [] })
    ∧ (∀ (srcE : ChainSource) (e : Unit), srcE.getBlockNumber = Except.error e →
        syncHistoricalEvents srcE 9 5 { assets := [], transfers := [] } 0
          = Except.error e) :=
  C7_sync_partial_failure c7Src c7SrcB 9 5 0 { assets := [], transfers := [] } 25 10
    rfl rfl
    (fun lo hi hne => by
      constructor <;> simp [c7SrcB, c7Src, hne])
    (fun hi => by simp [c7SrcB])

theorem hAT_no_error (getBlock : GetBlock)
    (hgb : ∀ n, ∃ r, getBlock n = Except.ok r) (s : Store) (now : Nat)
    (id newOwner : String) (event : EventEnvelope) :
    (handleAssetTransferred getBlock s now id newOwner event).2 = false := by
  obtain ⟨r, hr⟩ := hgb (blockNumberOf event)
  cases hf : findByPk s id with
  | none => simp [handleAssetTransferred, hf]
  | some a =>
      cases hh : transferHashOf event with
      | none => simp [handleAssetTransferred, hf, hh]
      | some th =>
          by_cases hc : th ≠ "" ∧ blockNumberOf event ≠ 0
          · cases hft : s.transfers.find? (fun t => t.transactionHash = th) with
            | some t =>
                simp [handleAssetTransferred, findTransferByHash, hf, hh, if_pos hc, hft]
            | none =>
                simp only [handleAssetTransferred, findTransferByHash, hf, hh,
                  if_pos hc, hft, hr]
          · simp [handleAssetTransferred, hf, hh, if_neg hc]

theorem hAR_decomp (s : Store) (now : Nat) (e : RegEvent) :
    handleAssetRegistered s now e.id e.owner e.description e.timestamp e.env
      = { assets := regA now e s.assets,
          transfers := s.transfers ++ regR now e s.transfers } := by
  cases hf : s.assets.find? (fun a => a.id = e.id) with
  | some a =>
      cases hh : transferHashOf e.env with
      | none => simp [handleAssetRegistered, findByPk, hf, hh, regA, regR]
      | some th =>
          by_cases hc : th ≠ "" ∧ blockNumberOf e.env ≠ 0
          · cases hft : s.transfers.find? (fun t => t.transactionHash = th) with
            | some t =>
                simp [handleAssetRegistered, findByPk, findTransferByHash, hf, hh,
                  hft, regA, regR, if_pos hc]
            | none =>
                simp [handleAssetRegistered, findByPk, findTransferByHash, hf, hh,
                  hft, regA, regR, if_pos hc, regTransfer]
          · simp [handleAssetRegistered, findByPk, hf, hh, regA, regR, if_neg hc]
  | none =>
      cases hh : transferHashOf e.env with
      | none => simp [handleAssetRegistered, findByPk, hf, hh, regA, regR, regAsset]
      | some th =>
          by_cases hc : th ≠ "" ∧ blockNumberOf e.env ≠ 0
          · cases hft : s.transfers.find? (fun t => t.transactionHash = th) with
            | some t =>
                simp [handleAssetRegistered, findByPk, findTransferByHash, hf, hh,
                  hft, regA, regR, if_pos hc, regAsset]
            | none =>
                simp [handleAssetRegistered, findByPk, findTransferByHash, hf, hh,
                  hft, regA, regR, if_pos hc, regAsset, regTransfer]
          · simp [handleAssetRegistered, findByPk, hf, hh, regA, regR, if_neg hc,
              regAsset]

theorem hAT_decomp (getBlock : GetBlock) (s : Store) (now : Nat)
    (e : TransferEvent) :
    (handleAssetTransferred getBlock s now e.id e.newOwner e.env).1
      = { assets := xferA e s.assets,
          transfers := s.transfers ++ xferR getBlock now e s.assets s.transfers } := by
  cases hf : s.assets.find? (fun a => a.id = e.id) with
  | none => simp [handleAssetTransferred, findByPk, hf, xferA, xferR]
  | some a =>
      cases hh : transferHashOf e.env with
      | none => simp [handleAssetTransferred, findByPk, hf, hh, xferA, xferR]
      | some th =>
          by_cases hc : th ≠ "" ∧ blockNumberOf e.env ≠ 0
          · cases hft : s.transfers.find? (fun t => t.transactionHash = th) with
            | some t =>
                simp [handleAssetTransferred, findByPk, findTransferByHash, hf, hh,
                  hft, xferA, xferR, if_pos hc]
            | none =>
                cases hr : getBlock (blockNumberOf e.env) with
                | error u =>
                    simp [handleAssetTransferred, findByPk, findTransferByHash, hf,
                      hh, hft, hr, xferA, xferR, if_pos hc]
                | ok ob =>
                    cases ob <;>
                    simp [handleAssetTransferred, findByPk, findTransferByHash, hf,
                      hh, hft, hr, xferA, xferR, if_pos hc, xferTransfer, resolvedTs]
          · simp [handleAssetTransferred, findByPk, hf, hh, xferA, xferR, if_neg hc]

theorem applyEvent_decomp (g : GetBlock) (now : Nat) (s : Store)
    (ev : ChainEvent) :
    applyEvent g now s ev
      = { assets := evA now ev s.assets,
          transfers := s.transfers ++ evR g now ev s.assets s.transfers } := by
  cases ev with
  | reg e => exact hAR_decomp s now e
  | xfer e => exact hAT_decomp g s now e

theorem applyRegs_eq (g : GetBlock) (now : Nat) (rs : List RegEvent) :
    ∀ s, applyRegs s now rs = applyEvents g now s (rs.map ChainEvent.reg) := by
  induction rs with
  | nil => intro s; rfl
  | cons e rs ih =>
      intro s
      show applyRegs (handleAssetRegistered s now e.id e.owner e.description
        e.timestamp e.env) now rs = _
      rw [ih]
      rfl

theorem applyXfersPartial_eq (g : GetBlock)
    (hgb : ∀ n, ∃ r, g n = Except.ok r) (now : Nat) (xs : List TransferEvent) :
    ∀ s, applyXfersPartial g now xs s = applyEvents g now s (xs.map ChainEvent.xfer) := by
  induction xs with
  | nil => intro s; rfl
  | cons e xs ih =>
      intro s
      have h2 := hAT_no_error g hgb s now e.id e.newOwner e.env
      cases hA : handleAssetTransferred g s now e.id e.newOwner e.env with
      | mk s2 b =>
          rw [hA] at h2
          cases b with
          | true => exact absurd h2 (by simp)
          | false =>
              rw [show applyXfersPartial g now (e :: xs) s
                  = applyXfersPartial g now xs s2 by
                simp [applyXfersPartial, hA]]
              rw [ih s2]
              show _ = applyEvents g now
                ((handleAssetTransferred g s now e.id e.newOwner e.env).1)
                (xs.map ChainEvent.xfer)
              rw [hA]

theorem storeEquiv_refl (s : Store) : StoreEquiv s s :=
  ⟨rfl, List.Perm.refl _⟩

theorem storeEquiv_trans {s1 s2 s3 : Store} (h1 : StoreEquiv s1 s2)
    (h2 : StoreEquiv s2 s3) : StoreEquiv s1 s3 :=
  ⟨h1.1.trans h2.1, h1.2.trans h2.2⟩

theorem find?_none_iff_of_perm {α : Type} {p : α → Bool} {l1 l2 : List α}
    (hp : l1.Perm l2) : l1.find? p = none ↔ l2.find? p = none := by
  rw [List.find?_eq_none, List.find?_eq_none]
  constructor <;> intro h x hx
  · exact h x (hp.mem_iff.2 hx)
  · exact h x (hp.mem_iff.1 hx)

theorem find?_append_right_none {α : Type} {p : α → Bool} (l1 l2 : List α)
    (h : ∀ x ∈ l2, ¬ p x) : (l1 ++ l2).find? p = l1.find? p := by
  rw [List.find?_append, show l2.find? p = none from List.find?_eq_none.2 h,
    Option.or_none]

theorem evHash_of_some {e : EventEnvelope} {h : String}
    (hh : transferHashOf e = some h) : evHash e = h := by
  simp [evHash, hh]

theorem regR_perm (now : Nat) (e : RegEvent) {ts1 ts2 : List Transfer}
    (hp : ts1.Perm ts2) : regR now e ts1 = regR now e ts2 := by
  unfold regR
  cases hh : transferHashOf e.env with
  | none => rfl
  | some h =>
      dsimp only
      by_cases hc : h ≠ "" ∧ blockNumberOf e.env ≠ 0
      · rw [if_pos hc, if_pos hc]
        cases h1 : ts1.find? (fun t => t.transactionHash = h) with
        | none =>
            rw [(find?_none_iff_of_perm hp).1 h1]
        | some t =>
            cases h2 : ts2.find? (fun t => t.transactionHash = h) with
            | none =>
                rw [(find?_none_iff_of_perm hp).2 h2] at h1
                exact absurd h1 (by simp)
            | some t2 => rfl
      · rw [if_neg hc, if_neg hc]

theorem xferR_perm (g : GetBlock) (now : Nat) (e : TransferEvent)
    (l : List Asset) {ts1 ts2 : List Transfer}
    (hp : ts1.Perm ts2) : xferR g now e l ts1 = xferR g now e l ts2 := by
  unfold xferR
  cases hf : l.find? (fun a => a.id = e.id) with
  | none => rfl
  | some a =>
      dsimp only
      cases hh : transferHashOf e.env with
      | none => rfl
      | some h =>
          dsimp only
          by_cases hc : h ≠ "" ∧ blockNumberOf e.env ≠ 0
          · rw [if_pos hc, if_pos hc]
            cases h1 : ts1.find? (fun t => t.transactionHash = h) with
            | none =>
                rw [(find?_none_iff_of_perm hp).1 h1]
            | some t =>
                cases h2 : ts2.find? (fun t => t.transactionHash = h) with
                | none =>
                    rw [(find?_none_iff_of_perm hp).2 h2] at h1
                    exact absurd h1 (by simp)
                | some t2 => rfl
          · rw [if_neg hc, if_neg hc]

theorem evR_perm (g : GetBlock) (now : Nat) (ev : ChainEvent)
    (l : List Asset) {ts1 ts2 : List Transfer} (hp : ts1.Perm ts2) :
    evR g now ev l ts1 = evR g now ev l ts2 := by
  cases ev with
  | reg e => exact regR_perm now e hp
  | xfer e => exact xferR_perm g now e l hp

theorem regR_append_irrel (now : Nat) (e : RegEvent) (ts ts2 : List Transfer)
    (h : ∀ t ∈ ts2, t.transactionHash ≠ evHash e.env) :
    regR now e (ts ++ ts2) = regR now e ts := by
  unfold regR
  cases hh : transferHashOf e.env with
  | none => rfl
  | some h2 =>
      dsimp only
      have he : evHash e.env = h2 := evHash_of_some hh
      rw [find?_append_right_none ts ts2 (by
        intro t ht
        simp only [decide_eq_true_eq]
        rw [← he]
        exact h t ht)]

theorem xferR_append_irrel (g : GetBlock) (now : Nat) (e : TransferEvent)
    (l : List Asset) (ts ts2 : List Transfer)
    (h : ∀ t ∈ ts2, t.transactionHash ≠ evHash e.env) :
    xferR g now e l (ts ++ ts2) = xferR g now e l ts := by
  unfold xferR
  cases hf : l.find? (fun a => a.id = e.id) with
  | none => rfl
  | some a =>
      dsimp only
      cases hh : transferHashOf e.env with
      | none => rfl
      | some h2 =>
          dsimp only
          have he : evHash e.env = h2 := evHash_of_some hh
          rw [find?_append_right_none ts ts2 (by
            intro t ht
            simp only [decide_eq_true_eq]
            rw [← he]
            exact h t ht)]

theorem regR_rows_hash (now : Nat) (e : RegEvent) (ts : List Transfer) :
    ∀ t ∈ regR now e ts, t.transactionHash = evHash e.env := by
  unfold regR
  cases hh : transferHashOf e.env with
  | none => simp
  | some h =>
      dsimp only
      have he : evHash e.env = h := evHash_of_some hh
      by_cases hc : h ≠ "" ∧ blockNumberOf e.env ≠ 0
      · rw [if_pos hc]
        cases ts.find? (fun t => t.transactionHash = h) with
        | some t => simp
        | none =>
            intro t ht
            simp only [List.mem_singleton] at ht
            rw [ht, he]
            rfl
      · rw [if_neg hc]
        simp

theorem xferR_rows_hash (g : GetBlock) (now : Nat) (e : TransferEvent)
    (l : List Asset) (ts : List Transfer) :
    ∀ t ∈ xferR g now e l ts, t.transactionHash = evHash e.env := by
  unfold xferR
  cases hf : l.find? (fun a => a.id = e.id) with
  | none => simp
  | some a =>
      dsimp only
      cases hh : transferHashOf e.env with
      | none => simp
      | some h =>
          dsimp only
          have he : evHash e.env = h := evHash_of_some hh
          by_cases hc : h ≠ "" ∧ blockNumberOf e.env ≠ 0
          · rw [if_pos hc]
            cases ts.find? (fun t => t.transactionHash = h) with
            | some t => simp
            | none =>
                cases g (blockNumberOf e.env) with
                | error u => simp
                | ok ob =>
                    intro t ht
                    simp only [List.mem_singleton] at ht
                    rw [ht, he]
                    rfl
          · rw [if_neg hc]
            simp

theorem evR_rows_hash (g : GetBlock) (now : Nat) (ev : ChainEvent)
    (l : List Asset) (ts : List Transfer) :
    ∀ t ∈ evR g now ev l ts, t.transactionHash = evHash (ChainEvent.env ev) := by
  cases ev with
  | reg e => exact regR_rows_hash now e ts
  | xfer e => exact xferR_rows_hash g now e l ts

theorem find?_updOwner_gen (l : List Asset) (i j o : String) :
    (updOwner i o l).find? (fun a => a.id = j)
      = Option.map (fun a => if a.id = i then { a with owner := o } else a)
          (l.find? (fun a => a.id = j)) := by
  unfold updOwner
  rw [List.find?_map]
  have hp : ((fun a : Asset => decide (a.id = j)) ∘
      fun a => if a.id = i then { a with owner := o } else a)
      = fun a : Asset => decide (a.id = j) := by
    funext a; by_cases h : a.id = i <;> simp [h]
  rw [hp]

theorem find?_regA_other (now : Nat) (r : RegEvent) (l : List Asset) (j : String)
    (hid : j = r.id → (l.find? (fun a => a.id = r.id)).isSome) :
    (regA now r l).find? (fun a => a.id = j) = l.find? (fun a => a.id = j) := by
  unfold regA
  cases hr : l.find? (fun a => a.id = r.id) with
  | some a => rfl
  | none =>
      dsimp only
      have hj : j ≠ r.id := by
        intro hcontra
        have h2 := hid hcontra
        rw [hr] at h2
        simp at h2
      have hsing : ([regAsset now r.id r.owner r.description r.timestamp] :
          List Asset).find? (fun a => a.id = j) = none := by
        simp [List.find?_singleton, regAsset,
          show ¬ (r.id = j) from fun hc => hj hc.symm]
      rw [List.find?_append, hsing, Option.or_none]

theorem evA_swap (now : Nat) (r : RegEvent) (x : TransferEvent) (l : List Asset)
    (hid : x.id = r.id → (l.find? (fun a => a.id = r.id)).isSome) :
    regA now r (xferA x l) = xferA x (regA now r l) := by
  have hfind : (regA now r l).find? (fun a => a.id = x.id)
      = l.find? (fun a => a.id = x.id) :=
    find?_regA_other now r l x.id hid
  cases hx : l.find? (fun a => a.id = x.id) with
  | none =>
      have hxA : xferA x l = l := by unfold xferA; rw [hx]
      have hxA2 : xferA x (regA now r l) = regA now r l := by
        unfold xferA; rw [hfind, hx]
      rw [hxA, hxA2]
  | some ax =>
      have hxA : xferA x l = updOwner x.id (toLowerStr x.newOwner) l := by
        unfold xferA; rw [hx]
      have hxA2 : xferA x (regA now r l)
          = updOwner x.id (toLowerStr x.newOwner) (regA now r l) := by
        unfold xferA; rw [hfind, hx]
      rw [hxA, hxA2]
      unfold regA
      rw [find?_updOwner_gen]
      cases hr : l.find? (fun a => a.id = r.id) with
      | some ar => rfl
      | none =>
          dsimp only
          have hxr : x.id ≠ r.id := by
            intro hcontra
            have h2 := hid hcontra
            rw [hr] at h2
            simp at h2
          unfold updOwner
          rw [List.map_append]
          congr 1
          simp [regAsset, show ¬ (r.id = x.id) from fun hc => hxr hc.symm]

theorem xferR_regA (g : GetBlock) (now now2 : Nat) (r : RegEvent)
    (x : TransferEvent) (l : List Asset) (ts : List Transfer)
    (hid : x.id = r.id → (l.find? (fun a => a.id = r.id)).isSome) :
    xferR g now x (regA now2 r l) ts = xferR g now x l ts := by
  unfold xferR
  rw [find?_regA_other now2 r l x.id hid]

theorem applyEvent_congr (g : GetBlock) (now : Nat) (ev : ChainEvent)
    {s1 s2 : Store} (h : StoreEquiv s1 s2) :
    StoreEquiv (applyEvent g now s1 ev) (applyEvent g now s2 ev) := by
  obtain ⟨ha, hp⟩ := h
  rw [applyEvent_decomp, applyEvent_decomp]
  constructor
  · show evA now ev s1.assets = evA now ev s2.assets
    rw [ha]
  · show (s1.transfers ++ evR g now ev s1.assets s1.transfers).Perm
      (s2.transfers ++ evR g now ev s2.assets s2.transfers)
    rw [ha, evR_perm g now ev s2.assets hp]
    exact hp.append_right _

theorem applyEvents_append (g : GetBlock) (now : Nat) (s : Store)
    (l1 l2 : List ChainEvent) :
    applyEvents g now s (l1 ++ l2)
      = applyEvents g now (applyEvents g now s l1) l2 :=
  List.foldl_append _ _ _ _

theorem applyEvents_congr (g : GetBlock) (now : Nat) (evs : List ChainEvent) :
    ∀ {s1 s2 : Store}, StoreEquiv s1 s2 →
      StoreEquiv (applyEvents g now s1 evs) (applyEvents g now s2 evs) := by
  induction evs with
  | nil => intro s1 s2 h; exact h
  | cons ev evs ih =>
      intro s1 s2 h
      exact ih (applyEvent_congr g now ev h)

theorem isSome_evA (now : Nat) (ev : ChainEvent) (l : List Asset) (j : String)
    (h : (l.find? (fun a => a.id = j)).isSome) :
    ((evA now ev l).find? (fun a => a.id = j)).isSome := by
  obtain ⟨a, ha⟩ := Option.isSome_iff_exists.1 h
  cases ev with
  | reg e =>
      simp only [evA]
      unfold regA
      cases hr : l.find? (fun a2 => a2.id = e.id) with
      | some a2 => dsimp only; rw [ha]; rfl
      | none =>
          dsimp only
          rw [List.find?_append, ha]
          rfl
  | xfer e =>
      simp only [evA]
      unfold xferA
      cases hx : l.find? (fun a2 => a2.id = e.id) with
      | none => dsimp only; rw [ha]; rfl
      | some a2 =>
          dsimp only
          rw [find?_updOwner_gen, ha]
          rfl

theorem findByPk_isSome_applyEvent (g : GetBlock) (now : Nat) (ev : ChainEvent)
    (s : Store) (j : String) (h : (findByPk s j).isSome) :
    (findByPk (applyEvent g now s ev) j).isSome := by
  rw [applyEvent_decomp]
  exact isSome_evA now ev s.assets j h

theorem findByPk_isSome_applyEvents (g : GetBlock) (now : Nat)
    (evs : List ChainEvent) :
    ∀ (s : Store) (j : String), (findByPk s j).isSome →
      (findByPk (applyEvents g now s evs) j).isSome := by
  induction evs with
  | nil => intro s j h; exact h
  | cons ev evs ih =>
      intro s j h
      exact ih _ j (findByPk_isSome_applyEvent g now ev s j h)

theorem findByPk_isSome_after_reg (g : GetBlock) (now : Nat) (r : RegEvent)
    (s : Store) :
    (findByPk (applyEvent g now s (ChainEvent.reg r)) r.id).isSome := by
  rw [applyEvent_decomp]
  show ((evA now (ChainEvent.reg r) s.assets).find? (fun a => a.id = r.id)).isSome
  simp only [evA]
  unfold regA
  cases hr : s.assets.find? (fun a => a.id = r.id) with
  | some a => dsimp only; rw [hr]; rfl
  | none =>
      dsimp only
      rw [List.find?_append, hr]
      simp [List.find?_singleton, regAsset]

theorem findByPk_isSome_applyEvents_of_mem (g : GetBlock) (now : Nat)
    (evs : List ChainEvent) :
    ∀ (s : Store) (r : RegEvent), ChainEvent.reg r ∈ evs →
      (findByPk (applyEvents g now s evs) r.id).isSome := by
  induction evs with
  | nil => intro s r h; exact absurd h (List.not_mem_nil _)
  | cons ev evs ih =>
      intro s r h
      rcases List.mem_cons.1 h with h1 | h2
      · rw [← h1]
        exact findByPk_isSome_applyEvents g now evs _ r.id
          (findByPk_isSome_after_reg g now r s)
      · exact ih _ r h2

theorem applyEvent_swap (g : GetBlock) (now : Nat) (r : RegEvent)
    (x : TransferEvent) (s : Store)
    (hne : evHash r.env ≠ evHash x.env)
    (hid : x.id = r.id → (findByPk s r.id).isSome) :
    StoreEquiv
      (applyEvent g now (applyEvent g now s (ChainEvent.xfer x)) (ChainEvent.reg r))
      (applyEvent g now (applyEvent g now s (ChainEvent.reg r)) (ChainEvent.xfer x)) := by
  rw [applyEvent_decomp g now s (ChainEvent.xfer x),
    applyEvent_decomp g now s (ChainEvent.reg r),
    applyEvent_decomp, applyEvent_decomp]
  constructor
  · show regA now r (xferA x s.assets) = xferA x (regA now r s.assets)
    exact evA_swap now r x s.assets hid
  · show ((s.transfers ++ xferR g now x s.assets s.transfers)
        ++ regR now r (s.transfers ++ xferR g now x s.assets s.transfers)).Perm
      ((s.transfers ++ regR now r s.transfers)
        ++ xferR g now x (regA now r s.assets) (s.transfers ++ regR now r s.transfers))
    rw [regR_append_irrel now r s.transfers _ (by
      intro t ht
      rw [xferR_rows_hash g now x s.assets s.transfers t ht]
      exact fun hc => hne hc.symm)]
    rw [xferR_regA g now now r x s.assets _ hid]
    rw [xferR_append_irrel g now x s.assets s.transfers _ (by
      intro t ht
      rw [regR_rows_hash now r s.transfers t ht]
      exact hne)]
    rw [List.append_assoc, List.append_assoc]
    exact List.Perm.append_left s.transfers List.perm_append_comm

theorem applyEvents_move_single (g : GetBlock) (now : Nat) (r : RegEvent) :
    ∀ (xs : List TransferEvent) (s : Store),
      ((findByPk s r.id).isSome ∨ ∀ x ∈ xs, x.id ≠ r.id) →
      (∀ x ∈ xs, evHash r.env ≠ evHash x.env) →
      StoreEquiv
        (applyEvents g now s (xs.map ChainEvent.xfer ++ [ChainEvent.reg r]))
        (applyEvents g now s (ChainEvent.reg r :: xs.map ChainEvent.xfer)) := by
  intro xs
  induction xs with
  | nil => intro s _ _; exact storeEquiv_refl _
  | cons x xs ih =>
      intro s hcond hhash
      have hcond2 : (findByPk (applyEvent g now s (ChainEvent.xfer x)) r.id).isSome
          ∨ ∀ x2 ∈ xs, x2.id ≠ r.id := by
        rcases hcond with h1 | h2
        · exact Or.inl (findByPk_isSome_applyEvent g now _ s r.id h1)
        · exact Or.inr (fun x2 hx2 => h2 x2 (List.mem_cons_of_mem x hx2))
      have hih := ih (applyEvent g now s (ChainEvent.xfer x)) hcond2
        (fun x2 hx2 => hhash x2 (List.mem_cons_of_mem x hx2))
      refine storeEquiv_trans hih ?_
      have hswap := applyEvent_swap g now r x s
        (hhash x (List.mem_cons_self x xs))
        (by
          intro hxr
          rcases hcond with h1 | h2
          · exact h1
          · exact absurd hxr (h2 x (List.mem_cons_self x xs)))
      exact applyEvents_congr g now (xs.map ChainEvent.xfer) hswap

theorem applyEvents_move (g : GetBlock) (now : Nat) :
    ∀ (rs : List RegEvent) (xs : List TransferEvent) (s : Store),
      (∀ r ∈ rs, (findByPk s r.id).isSome ∨ ∀ x ∈ xs, x.id ≠ r.id) →
      (∀ r ∈ rs, ∀ x ∈ xs, evHash r.env ≠ evHash x.env) →
      StoreEquiv
        (applyEvents g now s (xs.map ChainEvent.xfer ++ rs.map ChainEvent.reg))
        (applyEvents g now s (rs.map ChainEvent.reg ++ xs.map ChainEvent.xfer)) := by
  intro rs
  induction rs with
  | nil =>
      intro xs s _ _
      simp only [List.map_nil, List.append_nil, List.nil_append]
      exact storeEquiv_refl _
  | cons r rs ih =>
      intro xs s hcond hhash
      have hassoc : xs.map ChainEvent.xfer ++ (r :: rs).map ChainEvent.reg
          = (xs.map ChainEvent.xfer ++ [ChainEvent.reg r]) ++ rs.map ChainEvent.reg := by
        simp
      rw [hassoc, applyEvents_append]
      have hsingle := applyEvents_move_single g now r xs s
        (hcond r (List.mem_cons_self r rs)) (hhash r (List.mem_cons_self r rs))
      have hstep := applyEvents_congr g now (rs.map ChainEvent.reg) hsingle
      refine storeEquiv_trans hstep ?_
      have heq : applyEvents g now
          (applyEvents g now s (ChainEvent.reg r :: xs.map ChainEvent.xfer))
          (rs.map ChainEvent.reg)
          = applyEvents g now (applyEvent g now s (ChainEvent.reg r))
              (xs.map ChainEvent.xfer ++ rs.map ChainEvent.reg) := by
        rw [applyEvents_append]
        rfl
      rw [heq]
      have hih := ih xs (applyEvent g now s (ChainEvent.reg r))
        (fun r2 hr2 => (hcond r2 (List.mem_cons_of_mem r hr2)).imp
          (findByPk_isSome_applyEvent g now _ s r2.id) id)
        (fun r2 hr2 => hhash r2 (List.mem_cons_of_mem r hr2))
      refine storeEquiv_trans hih ?_
      have hassoc2 : (r :: rs).map ChainEvent.reg ++ xs.map ChainEvent.xfer
          = ChainEvent.reg r :: (rs.map ChainEvent.reg ++ xs.map ChainEvent.xfer) := by
        simp
      rw [hassoc2]
      exact storeEquiv_refl _

theorem chunkStartsAux_irrel (K1 cur : Nat) :
    ∀ fuel1 fuel2 start, cur + 2 - start ≤ fuel1 → cur + 2 - start ≤ fuel2 →
      chunkStartsAux K1 cur fuel1 start = chunkStartsAux K1 cur fuel2 start := by
  intro fuel1
  induction fuel1 with
  | zero =>
      intro fuel2 start h1 h2
      have hgt : ¬ start ≤ cur := by omega
      cases fuel2 with
      | zero => rfl
      | succ f2 => simp [chunkStartsAux, hgt]
  | succ f ih =>
      intro fuel2 start h1 h2
      by_cases hs : start ≤ cur
      · cases fuel2 with
        | zero => omega
        | succ f2 =>
            simp only [chunkStartsAux, if_pos hs]
            congr 1
            exact ih f2 (start + K1 + 1) (by omega) (by omega)
      · cases fuel2 with
        | zero => simp [chunkStartsAux, hs]
        | succ f2 => simp [chunkStartsAux, hs]

theorem chunkStarts_unfold (K1 cur s : Nat) :
    chunkStarts K1 cur s
      = if s ≤ cur then s :: chunkStarts K1 cur (s + K1 + 1) else [] := by
  unfold chunkStarts
  by_cases hs : s ≤ cur
  · rw [if_pos hs]
    have h1 : cur + 2 - s = (cur + 1 - s) + 1 := by omega
    rw [h1]
    simp only [chunkStartsAux, if_pos hs]
    congr 1
    exact chunkStartsAux_irrel K1 cur (cur + 1 - s) (cur + 2 - (s + K1 + 1))
      (s + K1 + 1) (by omega) (by omega)
  · rw [if_neg hs]
    cases hf : cur + 2 - s with
    | zero => rfl
    | succ f => simp [chunkStartsAux, hs]

theorem filter_range_all_gt {hist : List ChainEvent} {m : Nat}
    (h : ∀ ev ∈ hist, m < ChainEvent.block ev) (lo hi : Nat) (hhi : hi ≤ m) :
    hist.filter (inRange lo hi) = [] := by
  rw [List.filter_eq_nil]
  intro ev hev
  have := h ev hev
  simp only [inRange, decide_eq_true_eq]
  omega

theorem filter_range_congr_lo {hist : List ChainEvent} {m : Nat}
    (h : ∀ ev ∈ hist, m < ChainEvent.block ev) (lo hi : Nat) (hlo : lo ≤ m + 1) :
    hist.filter (inRange lo hi) = hist.filter (inRange (m + 1) hi) := by
  apply List.filter_congr
  intro ev hev
  have := h ev hev
  simp only [inRange, decide_eq_decide]
  omega

theorem filter_range_split (hist : List ChainEvent)
    (hsort : hist.Pairwise (fun a b => ChainEvent.block a ≤ ChainEvent.block b)) :
    ∀ (lo m hi : Nat), lo ≤ m + 1 → m ≤ hi →
    hist.filter (inRange lo hi)
      = hist.filter (inRange lo m) ++ hist.filter (inRange (m + 1) hi) := by
  induction hist with
  | nil => simp
  | cons ev hist ih =>
      intro lo m hi h1 h2
      have hhead := (List.pairwise_cons.1 hsort).1
      have htail := (List.pairwise_cons.1 hsort).2
      by_cases hin : lo ≤ ChainEvent.block ev ∧ ChainEvent.block ev ≤ hi
      · by_cases hm : ChainEvent.block ev ≤ m
        · have hp1 : inRange lo hi ev = true := by
            simp [inRange]; omega
          have hp2 : inRange lo m ev = true := by
            simp [inRange]; omega
          have hp3 : inRange (m + 1) hi ev = false := by
            simp [inRange]; omega
          simp only [List.filter_cons, hp1, if_true, hp2, hp3, if_false]
          rw [ih htail lo m hi h1 h2]
          rfl
        · have hall : ∀ e2 ∈ hist, m < ChainEvent.block e2 :=
            fun e2 he2 => lt_of_lt_of_le (by omega) (hhead e2 he2)
          have hp1 : inRange lo hi ev = true := by
            simp [inRange]; omega
          have hp2 : inRange lo m ev = false := by
            simp [inRange]; omega
          have hp3 : inRange (m + 1) hi ev = true := by
            simp [inRange]; omega
          simp only [List.filter_cons, hp1, if_true, hp2, if_false, hp3]
          rw [filter_range_all_gt hall lo m (le_refl m)]
          rw [filter_range_congr_lo hall lo hi h1]
          rfl
      · have hp1 : inRange lo hi ev = false := by
          simp only [inRange, decide_eq_false_iff_not]
          intro hcontra
          exact hin hcontra
        have hp2 : inRange lo m ev = false := by
          simp only [inRange, decide_eq_false_iff_not]
          intro hcontra
          exact hin ⟨hcontra.1, by omega⟩
        have hp3 : inRange (m + 1) hi ev = false := by
          simp only [inRange, decide_eq_false_iff_not]
          intro hcontra
          exact hin ⟨by omega, hcontra.2⟩
        simp only [List.filter_cons, hp1, hp2, hp3, if_false]
        exact ih htail lo m hi h1 h2

theorem regsIn_split (hist : List ChainEvent)
    (hsort : hist.Pairwise (fun a b => ChainEvent.block a ≤ ChainEvent.block b))
    (lo m hi : Nat) (h1 : lo ≤ m + 1) (h2 : m ≤ hi) :
    regsIn hist lo hi = regsIn hist lo m ++ regsIn hist (m + 1) hi := by
  unfold regsIn
  rw [filter_range_split hist hsort lo m hi h1 h2, List.filterMap_append]

theorem xfersIn_split (hist : List ChainEvent)
    (hsort : hist.Pairwise (fun a b => ChainEvent.block a ≤ ChainEvent.block b))
    (lo m hi : Nat) (h1 : lo ≤ m + 1) (h2 : m ≤ hi) :
    xfersIn hist lo hi = xfersIn hist lo m ++ xfersIn hist (m + 1) hi := by
  unfold xfersIn
  rw [filter_range_split hist hsort lo m hi h1 h2, List.filterMap_append]

theorem regsIn_empty (hist : List ChainEvent) (lo hi : Nat) (h : hi < lo) :
    regsIn hist lo hi = [] := by
  unfold regsIn
  rw [show hist.filter (inRange lo hi) = [] from List.filter_eq_nil.2
    (fun ev _ => by simp only [inRange, decide_eq_true_eq]; omega)]
  rfl

theorem xfersIn_empty (hist : List ChainEvent) (lo hi : Nat) (h : hi < lo) :
    xfersIn hist lo hi = [] := by
  unfold xfersIn
  rw [show hist.filter (inRange lo hi) = [] from List.filter_eq_nil.2
    (fun ev _ => by simp only [inRange, decide_eq_true_eq]; omega)]
  rfl

theorem regsIn_mem {hist : List ChainEvent} {lo hi : Nat} {r : RegEvent} :
    r ∈ regsIn hist lo hi ↔ ChainEvent.reg r ∈ hist
      ∧ lo ≤ blockNumberOf r.env ∧ blockNumberOf r.env ≤ hi := by
  unfold regsIn
  constructor
  · intro h
    obtain ⟨ev, hev, hsome⟩ := List.mem_filterMap.1 h
    obtain ⟨hev2, hrange⟩ := List.mem_filter.1 hev
    cases ev with
    | reg e =>
        simp only [Option.some.injEq] at hsome
        subst hsome
        simp only [inRange, ChainEvent.block, decide_eq_true_eq] at hrange
        exact ⟨hev2, hrange⟩
    | xfer e => simp at hsome
  · rintro ⟨h1, h2, h3⟩
    apply List.mem_filterMap.2
    refine ⟨ChainEvent.reg r, List.mem_filter.2 ⟨h1, ?_⟩, rfl⟩
    simp only [inRange, ChainEvent.block, decide_eq_true_eq]
    exact ⟨h2, h3⟩

theorem xfersIn_mem {hist : List ChainEvent} {lo hi : Nat} {x : TransferEvent} :
    x ∈ xfersIn hist lo hi ↔ ChainEvent.xfer x ∈ hist
      ∧ lo ≤ blockNumberOf x.env ∧ blockNumberOf x.env ≤ hi := by
  unfold xfersIn
  constructor
  · intro h
    obtain ⟨ev, hev, hsome⟩ := List.mem_filterMap.1 h
    obtain ⟨hev2, hrange⟩ := List.mem_filter.1 hev
    cases ev with
    | xfer e =>
        simp only [Option.some.injEq] at hsome
        subst hsome
        simp only [inRange, ChainEvent.block, decide_eq_true_eq] at hrange
        exact ⟨hev2, hrange⟩
    | reg e => simp at hsome
  · rintro ⟨h1, h2, h3⟩
    apply List.mem_filterMap.2
    refine ⟨ChainEvent.xfer x, List.mem_filter.2 ⟨h1, ?_⟩, rfl⟩
    simp only [inRange, ChainEvent.block, decide_eq_true_eq]
    exact ⟨h2, h3⟩

theorem runChunk_hist (hist : List ChainEvent) (H : Nat) (g : GetBlock)
    (now : Nat) (s : Store) (lo hi : Nat)
    (hgb : ∀ n, ∃ r, g n = Except.ok r) :
    runChunk (histSource hist H g) now s lo hi
      = applyEvents g now s ((regsIn hist lo hi).map ChainEvent.reg
          ++ (xfersIn hist lo hi).map ChainEvent.xfer) := by
  unfold runChunk histSource
  dsimp only
  rw [applyRegs_eq g, applyXfersPartial_eq g hgb, applyEvents_append]

theorem applyEvents_chunk_step (g : GetBlock) (now : Nat) (s : Store)
    (A B C D : List ChainEvent)
    (hmove : StoreEquiv (applyEvents g now (applyEvents g now s A) (B ++ C))
                        (applyEvents g now (applyEvents g now s A) (C ++ B))) :
    StoreEquiv (applyEvents g now (applyEvents g now s (A ++ B)) (C ++ D))
               (applyEvents g now s ((A ++ C) ++ (B ++ D))) := by
  have e1 : applyEvents g now (applyEvents g now s (A ++ B)) (C ++ D)
      = applyEvents g now (applyEvents g now (applyEvents g now s A) (B ++ C)) D := by
    rw [← applyEvents_append g now s (A ++ B) (C ++ D),
      ← List.append_assoc (A ++ B) C D,
      List.append_assoc A B C,
      applyEvents_append g now s (A ++ (B ++ C)) D,
      applyEvents_append g now s A (B ++ C)]
  have e2 : applyEvents g now s ((A ++ C) ++ (B ++ D))
      = applyEvents g now (applyEvents g now (applyEvents g now s A) (C ++ B)) D := by
    rw [← List.append_assoc (A ++ C) B D,
      List.append_assoc A C B,
      applyEvents_append g now s (A ++ (C ++ B)) D,
      applyEvents_append g now s A (C ++ B)]
  rw [e1, e2]
  exact applyEvents_congr g now D hmove

theorem chunked_equiv_aux (hist : List ChainEvent) (H K1 : Nat) (g : GetBlock)
    (now : Nat)
    (hgb : ∀ n, ∃ r, g n = Except.ok r)
    (hsort : hist.Pairwise (fun a b => ChainEvent.block a ≤ ChainEvent.block b))
    (hH : ∀ ev ∈ hist, ChainEvent.block ev ≤ H)
    (hnodup : (hist.map (fun ev => evHash (ChainEvent.env ev))).Nodup)
    (hWF : ∀ x : TransferEvent, ChainEvent.xfer x ∈ hist →
      ∃ r : RegEvent, ChainEvent.reg r ∈ hist ∧ r.id = x.id
        ∧ blockNumberOf r.env ≤ blockNumberOf x.env) :
    ∀ (fuel start : Nat) (s : Store), H + 2 - start ≤ fuel →
      (∀ r : RegEvent, ChainEvent.reg r ∈ hist → blockNumberOf r.env < start →
        (findByPk s r.id).isSome) →
      StoreEquiv
        ((chunkStarts K1 H start).foldl
          (fun s2 b => runChunk (histSource hist H g) now s2 b (min (b + K1) H)) s)
        (applyEvents g now s ((regsIn hist start H).map ChainEvent.reg
          ++ (xfersIn hist start H).map ChainEvent.xfer)) := by
  intro fuel
  induction fuel with
  | zero =>
      intro start s hf hInv
      have hgt : H < start := by omega
      rw [chunkStarts_unfold K1 H start, if_neg (by omega)]
      rw [regsIn_empty hist start H hgt, xfersIn_empty hist start H hgt]
      exact storeEquiv_refl _
  | succ fuel ih =>
      intro start s hf hInv
      by_cases hs : start ≤ H
      case neg =>
        rw [chunkStarts_unfold K1 H start, if_neg hs]
        rw [regsIn_empty hist start H (by omega), xfersIn_empty hist start H (by omega)]
        exact storeEquiv_refl _
      case pos =>
      rw [chunkStarts_unfold K1 H start, if_pos hs]
      simp only [List.foldl_cons]
      rw [runChunk_hist hist H g now s start (min (start + K1) H) hgb]
      have hstartmin : start ≤ min (start + K1) H := Nat.le_min.2 ⟨by omega, hs⟩
      have hminH : min (start + K1) H ≤ H := Nat.min_le_right _ _
      have hInv2 : ∀ r : RegEvent, ChainEvent.reg r ∈ hist →
          blockNumberOf r.env < start + K1 + 1 →
          (findByPk (applyEvents g now s
            ((regsIn hist start (min (start + K1) H)).map ChainEvent.reg
              ++ (xfersIn hist start (min (start + K1) H)).map ChainEvent.xfer))
            r.id).isSome := by
        intro r hr hblk
        by_cases hlt : blockNumberOf r.env < start
        · exact findByPk_isSome_applyEvents g now _ s r.id (hInv r hr hlt)
        · have hble : blockNumberOf r.env ≤ min (start + K1) H :=
            Nat.le_min.2 ⟨by omega, hH _ hr⟩
          have hmem : r ∈ regsIn hist start (min (start + K1) H) :=
            regsIn_mem.2 ⟨hr, by omega, hble⟩
          exact findByPk_isSome_applyEvents_of_mem g now _ s r
            (List.mem_append_left _ (List.mem_map_of_mem ChainEvent.reg hmem))
      have hIH := ih (start + K1 + 1)
        (applyEvents g now s
          ((regsIn hist start (min (start + K1) H)).map ChainEvent.reg
            ++ (xfersIn hist start (min (start + K1) H)).map ChainEvent.xfer))
        (by omega) hInv2
      refine storeEquiv_trans hIH ?_
      have hR : regsIn hist (start + K1 + 1) H
          = regsIn hist (min (start + K1) H + 1) H := by
        by_cases hcase : start + K1 ≤ H
        · rw [Nat.min_eq_left hcase]
        · rw [Nat.min_eq_right (by omega)]
          rw [regsIn_empty hist (start + K1 + 1) H (by omega),
            regsIn_empty hist (H + 1) H (by omega)]
      have hX : xfersIn hist (start + K1 + 1) H
          = xfersIn hist (min (start + K1) H + 1) H := by
        by_cases hcase : start + K1 ≤ H
        · rw [Nat.min_eq_left hcase]
        · rw [Nat.min_eq_right (by omega)]
          rw [xfersIn_empty hist (start + K1 + 1) H (by omega),
            xfersIn_empty hist (H + 1) H (by omega)]
      have hsplitR : regsIn hist start H
          = regsIn hist start (min (start + K1) H)
            ++ regsIn hist (min (start + K1) H + 1) H :=
        regsIn_split hist hsort start (min (start + K1) H) H (by omega) hminH
      have hsplitX : xfersIn hist start H
          = xfersIn hist start (min (start + K1) H)
            ++ xfersIn hist (min (start + K1) H + 1) H :=
        xfersIn_split hist hsort start (min (start + K1) H) H (by omega) hminH
      rw [hR, hX, hsplitR, hsplitX]
      simp only [List.map_append]
      have hcond : ∀ r ∈ regsIn hist (min (start + K1) H + 1) H,
          (findByPk (applyEvents g now s
            ((regsIn hist start (min (start + K1) H)).map ChainEvent.reg))
            r.id).isSome
          ∨ ∀ x ∈ xfersIn hist start (min (start + K1) H), x.id ≠ r.id := by
        intro r hrmem
        by_cases hex : ∀ x ∈ xfersIn hist start (min (start + K1) H), x.id ≠ r.id
        · exact Or.inr hex
        · push_neg at hex
          obtain ⟨x, hxmem, hxid⟩ := hex
          left
          obtain ⟨hxin, hxlo, hxhi⟩ := xfersIn_mem.1 hxmem
          obtain ⟨r0, hr0in, hr0id, hr0blk⟩ := hWF x hxin
          by_cases hlt : blockNumberOf r0.env < start
          · have hps := hInv r0 hr0in hlt
            rw [hr0id, hxid] at hps
            exact findByPk_isSome_applyEvents g now _ s r.id hps
          · have hr0mem : r0 ∈ regsIn hist start (min (start + K1) H) :=
              regsIn_mem.2 ⟨hr0in, by omega, by omega⟩
            have hps := findByPk_isSome_applyEvents_of_mem g now
              ((regsIn hist start (min (start + K1) H)).map ChainEvent.reg) s r0
              (List.mem_map_of_mem ChainEvent.reg hr0mem)
            rw [hr0id, hxid] at hps
            exact hps
      have hhash : ∀ r ∈ regsIn hist (min (start + K1) H + 1) H,
          ∀ x ∈ xfersIn hist start (min (start + K1) H),
          evHash r.env ≠ evHash x.env := by
        intro r hrmem x hxmem hcontra
        have hrin := (regsIn_mem.1 hrmem).1
        have hxin := (xfersIn_mem.1 hxmem).1
        have heq := List.inj_on_of_nodup_map hnodup hrin hxin (by
          show evHash (ChainEvent.env (ChainEvent.reg r))
            = evHash (ChainEvent.env (ChainEvent.xfer x))
          exact hcontra)
        exact ChainEvent.noConfusion heq
      exact applyEvents_chunk_step g now s
        ((regsIn hist start (min (start + K1) H)).map ChainEvent.reg)
        ((xfersIn hist start (min (start + K1) H)).map ChainEvent.xfer)
        ((regsIn hist (min (start + K1) H + 1) H).map ChainEvent.reg)
        ((xfersIn hist (min (start + K1) H + 1) H).map ChainEvent.xfer)
        (applyEvents_move g now (regsIn hist (min (start + K1) H + 1) H)
          (xfersIn hist start (min (start + K1) H))
          (applyEvents g now s
            ((regsIn hist start (min (start + K1) H)).map ChainEvent.reg))
          hcond hhash)

/-- C4 counterexample: chunked backfill does not produce the same final
store as the unchunked pass.  With asset 1 registered in block 1 and
transferred in block 2, and asset 2 registered in block 15, the chunked run
(chunks of 10) inserts asset 1's transfer row before asset 2's registration
row, while the unchunked pass (all registrations first) inserts them in the
opposite order — the Transfer tables differ in insertion order, hence in
the locally-assigned sequential row ids. -/
theorem C4_counterexample :
    syncHistoricalEvents (histSource c4Hist 15 gbOk) 9 5
        { assets := [], transfers := [] } 0
      ≠ Except.ok (syncUnchunked c4Hist 15 gbOk 5 { assets := [], transfers := [] } 0) := by
  intro hEq
  have h2 : ((chunkStarts 9 15 0).foldl
      (fun s2 b => runChunk (histSource c4Hist 15 gbOk) 5 s2 b (min (b + 9) 15))
      { assets := [], transfers := [] })
      = syncUnchunked c4Hist 15 gbOk 5 { assets := [], transfers := [] } 0 :=
    Except.ok.inj hEq
  exact absurd h2 (by decide)

/-- C4 (amended): for every well-formed chain history over `[0, H]`
(ascending blocks, all blocks at most `H`, pairwise-distinct transaction
hashes, every transfer preceded at or before its block by a registration of
its asset) and every chunk size K = K1 + 1 at least 1, the chunked backfill
completes and produces the same Asset table as the unchunked pass and the
same Transfer rows up to insertion order (a permutation); the insertion
order itself — and with it the locally-assigned sequential Transfer ids —
may differ between chunk sizes. -/
theorem C4_chunked_backfill_equiv (hist : List ChainEvent) (H K1 : Nat)
    (g : GetBlock) (now : Nat) (s0 : Store)
    (hgb : ∀ n, ∃ r, g n = Except.ok r)
    (hsort : hist.Pairwise (fun a b => ChainEvent.block a ≤ ChainEvent.block b))
    (hH : ∀ ev ∈ hist, ChainEvent.block ev ≤ H)
    (hnodup : (hist.map (fun ev => evHash (ChainEvent.env ev))).Nodup)
    (hWF : ∀ x : TransferEvent, ChainEvent.xfer x ∈ hist →
      ∃ r : RegEvent, ChainEvent.reg r ∈ hist ∧ r.id = x.id
        ∧ blockNumberOf r.env ≤ blockNumberOf x.env) :
    ∃ s1, syncHistoricalEvents (histSource hist H g) K1 now s0 0 = Except.ok s1
      ∧ s1.assets = (syncUnchunked hist H g now s0 0).assets
      ∧ s1.transfers.Perm (syncUnchunked hist H g now s0 0).transfers := by
  refine ⟨(chunkStarts K1 H 0).foldl
    (fun s2 b => runChunk (histSource hist H g) now s2 b (min (b + K1) H)) s0,
    rfl, ?_⟩
  have hequiv := chunked_equiv_aux hist H K1 g now hgb hsort hH hnodup hWF
    (H + 2) 0 s0 (by omega) (fun r _ hblk => absurd hblk (by omega))
  have huneq : syncUnchunked hist H g now s0 0
      = applyEvents g now s0 ((regsIn hist 0 H).map ChainEvent.reg
          ++ (xfersIn hist 0 H).map ChainEvent.xfer) := by
    unfold syncUnchunked
    rw [applyRegs_eq g, applyXfersPartial_eq g hgb, applyEvents_append]
  rw [huneq]
  exact hequiv

theorem C4_chunked_backfill_equiv_witness :
    ∃ s1, syncHistoricalEvents (histSource c4Hist 15 gbOk) 9 5
        { assets := [], transfers := [] } 0 = Except.ok s1
      ∧ s1.assets = (syncUnchunked c4Hist 15 gbOk 5
          { assets := [], transfers := [] } 0).assets
      ∧ s1.transfers.Perm (syncUnchunked c4Hist 15 gbOk 5
          { assets := [], transfers := [] } 0).transfers :=
  C4_chunked_backfill_equiv c4Hist 15 9 gbOk 5 { assets := [], transfers := [] }
    (fun _ => ⟨some 2000, rfl⟩)
    (by decide) (by decide) (by decide)
    (by
      intro x hx
      have hx2 : x = { id := "1", newOwner := "0xBB", env := envOf "0xt2" 2 } := by
        simp only [c4Hist, List.mem_cons] at hx
        rcases hx with h | h | h
        · exact absurd h (by simp)
        · exact ChainEvent.xfer.inj h
        · simp at h
      subst hx2
      have hr0 : ChainEvent.reg
          { id := "1", owner := "0xAA", description := "Doc",
            timestamp := "1000", env := envOf "0xt1" 1 } ∈ c4Hist := by
        simp [c4Hist]
      exact ⟨_, hr0, rfl, by decide⟩)

end AssetRegistry
